import Mathlib

/-!
Shallow embedding of `src/neomodel/core.py` (an object-graph mapping layer
over a neo4j store) and proofs about its data model and operations:
property descriptors, schema lookup, node construction/validation, the
save/delete lifecycle with index maintenance and rollback, the relationship
manager, and index-backed search.

Python conventions mapped here: a raised exception becomes a `PyErr` value;
in-place mutation of `self` or of the store becomes explicit state passing
(methods return the updated object / store even on the error path, mirroring
the fact that a Python exception does not undo prior mutations).
-/

set_option autoImplicit false

namespace Neomodel

/-- Runtime values stored in node properties.  The source validates with
`isinstance(value, (str, unicode))` and `isinstance(value, (int, long))`,
so two kinds of value suffice for the mapped surface. -/
inductive Value
  | str (s : String)
  | int (n : Int)
deriving DecidableEq, Repr

/-- Which concrete `Property` subclass a descriptor is
(`StringProperty` or `IntegerProperty`); the subclass determines `validate`. -/
inductive PropKind
  | string
  | integer
deriving DecidableEq, Repr

/-- Errors surfaced by the mapped operations.  `NoSuchProperty`,
`PropertyNotIndexed` and `NotUnique` are exception classes of the source
module; `typeError` and `attributeError` are the Python builtins raised by
`validate` and by attribute access on a missing name / on `None`; the
remaining constructors name the source's bare `raise Exception(...)` sites
by the message they carry (declaration-time exclusivity, relate's class and
persistence checks, unrelate's single-relationship check, delete's
persistence check). -/
inductive PyErr
  | noSuchProperty (name : String)
  | propertyNotIndexed (name : String)
  | notUnique
  | typeError
  | attributeError (name : String)
  | declarationError (msg : String)
  | typeMismatch (clsName : String)
  | nodeNotPersisted
  | multipleRelationships (count : Nat)
deriving DecidableEq, Repr

/-- Property descriptor as stored by `Property.__init__`: it keeps
`unique_index` and `index` (the source does not store `blank`), plus the
subclass tag that fixes `validate`. -/
structure Property where
  unique_index : Bool
  index : Bool
  kind : PropKind
deriving DecidableEq, Repr

/-- `Property.__init__(unique_index, index, blank)`: rejects
`unique_index and index` and `unique_index and blank`, otherwise stores the
two indexing flags. -/
def Property.init (unique_index index blank : Bool) (kind : PropKind) :
    Except PyErr Property :=
  if unique_index && index then
    .error (.declarationError "unique_index and index are mutually exclusive")
  else if unique_index && blank then
    .error (.declarationError "uniquely indexed properties cannot also be blank")
  else
    .ok { unique_index := unique_index, index := index, kind := kind }

/-- `Property.is_indexed`. -/
def Property.is_indexed (p : Property) : Bool :=
  p.unique_index || p.index

/-- `StringProperty.validate` / `IntegerProperty.validate`: returns `True`
on a value of the declared kind, raises `TypeError` otherwise. -/
def Property.validate (p : Property) (v : Value) : Except PyErr Bool :=
  match p.kind, v with
  | .string, .str _ => .ok true
  | .string, .int _ => .error .typeError
  | .integer, .int _ => .ok true
  | .integer, .str _ => .error .typeError

/-- A value of the class `__dict__`: either a `Property` descriptor or some
other class attribute (in the source's usage, a `RelationshipDefinition` or
a method); only whether it is a `Property` matters to the mapped code. -/
inductive Attr
  | prop (p : Property)
  | nonProperty
deriving DecidableEq, Repr

/-- A declared `NeoNode` subclass: its name and its class `__dict__`
(attribute name to attribute value). -/
structure NodeClass where
  name : String
  attrs : List (String × Attr)
deriving DecidableEq, Repr

/-- `NeoNode.get_property(cls, name)`: `getattr(cls, name)` raises
`AttributeError` when `name` is not an attribute.  When the attribute exists
but is not a `Property`, line 182 of the source builds
`Exception(name + " is not a Property of " + cls.__name__)` WITHOUT raising
it, so the attribute is returned unchanged. -/
def NodeClass.get_property (cls : NodeClass) (name : String) : Except PyErr Attr :=
  match cls.attrs.lookup name with
  | none => .error (.attributeError name)
  | some a => .ok a

/-- A mapped node instance: its class, its remote identity
(`self._node`, `none` while transient) and the validated property slots of
its instance `__dict__` (the underscore-prefixed bookkeeping attributes and
the installed relationship managers, which `properties` filters out, are
kept outside this record). -/
structure NeoNode where
  cls : NodeClass
  node? : Option Nat
  dict : List (String × Value)
deriving DecidableEq, Repr

/-- `key.startswith('_')`, in a form the kernel can evaluate: whether the
first character of the string is an underscore. -/
def startsWithUnderscore (s : String) : Bool :=
  match s.data with
  | [] => false
  | c :: _ => c == '_'

/-- `NeoNode.properties`: the instance `__dict__` restricted to keys not
prefixed by an underscore (methods and relationship managers, also excluded
by the source, never enter `dict`). -/
def NeoNode.properties (self : NeoNode) : List (String × Value) :=
  self.dict.filter (fun p => !startsWithUnderscore p.1)

/-- `NeoNode._validate_args(props)`: for each supplied key, membership in
the class `__dict__` is checked (`NoSuchProperty` otherwise), the descriptor
is fetched with `get_property` and `validate` is run (a non-`Property`
attribute has no `validate`, hence `AttributeError`); validated pairs become
instance attributes. -/
def NeoNode.validate_args (cls : NodeClass) :
    List (String × Value) → Except PyErr (List (String × Value))
  | [] => .ok []
  | (key, value) :: rest =>
    match cls.attrs.lookup key with
    | none => .error (.noSuchProperty key)
    | some (.prop p) => do
        let _ ← p.validate value
        let d ← NeoNode.validate_args cls rest
        .ok ((key, value) :: d)
    | some .nonProperty => .error (.attributeError "validate")

/-- `NeoNode.__init__(**kwargs)`: validates the keyword arguments, then
starts transient (`self._node = None`). -/
def NeoNode.init (cls : NodeClass) (kwargs : List (String × Value)) :
    Except PyErr NeoNode := do
  let d ← NeoNode.validate_args cls kwargs
  .ok { cls := cls, node? := none, dict := d }

/-- A store relationship `(start node, relation type, end node)`. -/
abbrev Edge := Nat × String × Nat

/-- One secondary-index record: `(property name, value, node id)`. -/
abbrev IndexEntry := String × Value × Nat

/-- The remote graph store as the mapped layer observes it: allocated node
ids with their property maps, relationships, one secondary index per index
name (the source uses the class name), and the category-anchor registry
(the `Category` index with its get-or-create category nodes). -/
structure Store where
  nextId : Nat
  nodes : List (Nat × List (String × Value))
  edges : List Edge
  indexes : List (String × List IndexEntry)
  categories : List (String × Nat)
deriving DecidableEq, Repr

/-- Update (or insert) the binding of `k` in an association list (Python
dict assignment: replace an existing binding in place, append otherwise). -/
def setAssoc {α : Type} : List (String × α) → String → α → List (String × α)
  | [], k, v => [(k, v)]
  | (k', v') :: rest, k, v =>
      if k' == k then (k, v) :: rest else (k', v') :: setAssoc rest k v

/-- The entries currently held by the index named `name`. -/
def Store.entries (st : Store) (name : String) : List IndexEntry :=
  (st.indexes.lookup name).getD []

/-- `NeoDB.category(name)`: get-or-create of the category anchor node for a
type name (a node carrying `{'category': name}` registered in the
`Category` index). -/
def Store.category (st : Store) (name : String) : Store × Nat :=
  match st.categories.lookup name with
  | some n => (st, n)
  | none =>
      let n := st.nextId
      ({ st with
          nextId := n + 1
          nodes := (n, [("category", .str name)]) :: st.nodes
          categories := (name, n) :: st.categories }, n)

/-- `self._db.client.create(props, (category, RELATION_NAME, 0))`: allocate
a node holding `props` and the single category edge from the type's anchor
to it, labelled with the upper-cased type name. -/
def Store.create_node (st : Store) (typeName : String)
    (props : List (String × Value)) : Store × Nat :=
  let st1 := (st.category typeName).1
  let cat := (st.category typeName).2
  let n := st1.nextId
  ({ st1 with
      nextId := n + 1
      nodes := (n, props) :: st1.nodes
      edges := (cat, typeName.toUpper, n) :: st1.edges }, n)

/-- Replace the property map of node `n` in the node table. -/
def setNodeProps : List (Nat × List (String × Value)) → Nat →
    List (String × Value) → List (Nat × List (String × Value))
  | [], _, _ => []
  | (k, v) :: rest, n, props =>
      if k == n then (n, props) :: rest else (k, v) :: setNodeProps rest n props

/-- `node.set_properties(props)`: overwrite all properties of a store node. -/
def Store.set_properties (st : Store) (n : Nat)
    (props : List (String × Value)) : Store :=
  { st with nodes := setNodeProps st.nodes n props }

/-- `index.remove(entity=node)`: drop every entry of the named index that
points at the node. -/
def Store.index_remove (st : Store) (name : String) (n : Nat) : Store :=
  { st with indexes :=
      setAssoc st.indexes name ((st.entries name).filter (fun e => e.2.2 != n)) }

/-- Deleting a persisted node: `client.delete(*rels, node)` removes every
relationship incident to the node and then the node itself (index entries
are NOT touched by this path). -/
def Store.delete_node (st : Store) (n : Nat) : Store :=
  { st with
      edges := st.edges.filter (fun e => e.1 != n && e.2.2 != n)
      nodes := st.nodes.filter (fun p => p.1 != n) }

/-- Store sanity: every node referenced by the node table, the edge table
or the category registry has an already-allocated id.  Holds for the runs
the mapped layer itself produces and is preserved by every operation. -/
def Store.wf (st : Store) : Prop :=
  (∀ p ∈ st.nodes, p.1 < st.nextId) ∧
  (∀ e ∈ st.edges, e.1 < st.nextId ∧ e.2.2 < st.nextId) ∧
  (∀ c ∈ st.categories, c.2 < st.nextId)

/-- Edge direction, `neo4j.Direction.{OUTGOING, INCOMING, EITHER}`. -/
inductive Direction
  | outgoing
  | incoming
  | either
deriving DecidableEq, Repr

/-- `node.get_related_nodes(direction, relation_type)`: the opposite
endpoint of every edge of the given label incident to `n` in the given
direction. -/
def Store.get_related_nodes (st : Store) (n : Nat) (dir : Direction)
    (rt : String) : List Nat :=
  st.edges.filterMap (fun e =>
    if e.2.1 == rt then
      match dir with
      | .outgoing => if e.1 == n then some e.2.2 else none
      | .incoming => if e.2.2 == n then some e.1 else none
      | .either =>
          if e.1 == n then some e.2.2
          else if e.2.2 == n then some e.1 else none
    else none)

/-- `origin.get_relationships_with(other, direction, relation_type)`: the
edges of the given label between the two nodes, respecting direction. -/
def Store.get_relationships_with (st : Store) (n other : Nat)
    (dir : Direction) (rt : String) : List Edge :=
  st.edges.filter (fun e =>
    e.2.1 == rt &&
      match dir with
      | .outgoing => e.1 == n && e.2.2 == other
      | .incoming => e.1 == other && e.2.2 == n
      | .either =>
          (e.1 == n && e.2.2 == other) || (e.1 == other && e.2.2 == n))

/-- `client.get_or_create_relationships((start, type, end))`: idempotent
edge creation. -/
def Store.get_or_create_rel (st : Store) (o : Nat) (rt : String) (t : Nat) :
    Store :=
  if st.edges.contains (o, rt, t) then st
  else { st with edges := (o, rt, t) :: st.edges }

/-- `rels[0].delete()`: remove one specific relationship. -/
def Store.delete_rel (st : Store) (e : Edge) : Store :=
  { st with edges := st.edges.erase e }

/-- One queued operation of an `IndexBatch`: a conditional insert
(`add_if_none`, used for `unique_index` properties) or an unconditional one
(`add`, used for `index` properties). -/
inductive IndexOp
  | addIfNone (key : String) (value : Value) (node : Nat)
  | add (key : String) (value : Value) (node : Nat)
deriving DecidableEq, Repr

/-- The `(property name, value)` an operation indexes under. -/
def IndexOp.keyval : IndexOp → String × Value
  | .addIfNone k v _ => (k, v)
  | .add k v _ => (k, v)

/-- The node an operation points at. -/
def IndexOp.node : IndexOp → Nat
  | .addIfNone _ _ n => n
  | .add _ _ n => n

/-- The entry an operation writes when it does write. -/
def IndexOp.entry (op : IndexOp) : IndexEntry :=
  (op.keyval.1, op.keyval.2, op.node)

/-- Modelled from the spec: `IndexBatch.submit` (src/neomodel/indexbatch.py
is not in the sources).  Per §4.4 `insert_if_absent` either succeeds and
becomes the sole entry for `(key, value)` or reports a conflict and leaves
the prior entry untouched; the caller (`NeoNode._update_index`) recognises a
conflict as a response with HTTP status 200, so a conditional insert that
finds an existing `(key, value)` entry answers 200 without inserting and a
performed insert answers 201.  Returns the updated entry list and the
status list. -/
def IndexBatch.submit : List IndexOp → List IndexEntry →
    List IndexEntry × List Nat
  | [], es => (es, [])
  | .addIfNone k v n :: ops, es =>
      if es.any (fun e => e.1 == k && e.2.1 == v) then
        ((IndexBatch.submit ops es).1, 200 :: (IndexBatch.submit ops es).2)
      else
        ((IndexBatch.submit ops ((k, v, n) :: es)).1,
          201 :: (IndexBatch.submit ops ((k, v, n) :: es)).2)
  | .add k v n :: ops, es =>
      ((IndexBatch.submit ops ((k, v, n) :: es)).1,
        201 :: (IndexBatch.submit ops ((k, v, n) :: es)).2)

/-- The batch built by the loop of `NeoNode._update_index`: for each
property, `add_if_none` when its descriptor has `unique_index`, `add` when
it has `index`, nothing otherwise; `get_property` on a key that is not a
class attribute raises before anything is submitted, and a non-`Property`
attribute has no `unique_index` attribute. -/
def NeoNode.index_ops (cls : NodeClass) (n : Nat) :
    List (String × Value) → Except PyErr (List IndexOp)
  | [] => .ok []
  | (key, value) :: rest =>
    match cls.attrs.lookup key with
    | none => .error (.attributeError key)
    | some (.prop p) => do
        let ops ← NeoNode.index_ops cls n rest
        if p.unique_index then .ok (.addIfNone key value n :: ops)
        else if p.index then .ok (.add key value n :: ops)
        else .ok ops
    | some .nonProperty => .error (.attributeError "unique_index")

/-- `NeoNode._update_index(props)`: build the batch, submit it against the
class's index, and raise `NotUnique` when any response carries status 200.
The batch has been submitted by then, so the non-conflicting inserts stay
in the index even when the error is raised. -/
def NeoNode.update_index (cls : NodeClass) (props : List (String × Value))
    (n : Nat) (st : Store) : Store × Option PyErr :=
  match NeoNode.index_ops cls n props with
  | .error e => (st, some e)
  | .ok ops =>
      let es := (IndexBatch.submit ops (st.entries cls.name)).1
      let sts := (IndexBatch.submit ops (st.entries cls.name)).2
      let st1 := { st with indexes := setAssoc st.indexes cls.name es }
      if sts.contains 200 then (st1, some .notUnique) else (st1, none)

/-- `NeoNode.delete()`: raises the source's "Node has not been saved so
cannot be deleted" (the spec's `NodeNotPersisted`) when transient;
otherwise deletes every incident relationship and the node, clears
`self._node` and returns `True`. -/
def NeoNode.delete (self : NeoNode) (st : Store) :
    Store × NeoNode × Except PyErr Bool :=
  match self.node? with
  | none => (st, self, .error .nodeNotPersisted)
  | some n => (st.delete_node n, { self with node? := none }, .ok true)

/-- `NeoNode._create(props)`: create the store node with its category edge
and record the fresh identity on `self`; then run `_update_index`, and on
any exception roll back by calling `self.delete()` (which removes the node
and its incident edges and clears `self._node`) before re-raising. -/
def NeoNode.create_ (self : NeoNode) (props : List (String × Value))
    (st : Store) : Store × NeoNode × Option PyErr :=
  let st1 := (st.create_node self.cls.name props).1
  let n := (st.create_node self.cls.name props).2
  let self1 := { self with node? := some n }
  let st2 := (NeoNode.update_index self1.cls props n st1).1
  match (NeoNode.update_index self1.cls props n st1).2 with
  | none => (st2, self1, none)
  | some e => ((self1.delete st2).1, (self1.delete st2).2.1, some e)

/-- `NeoNode.save()`: when persisted, overwrite the store node's
properties, strip this node's entries from the class index and re-run
`_update_index` (no rollback protects this path); when transient, run
`_create`.  Returns `self`. -/
def NeoNode.save (self : NeoNode) (st : Store) :
    Store × NeoNode × Option PyErr :=
  match self.node? with
  | some n =>
      let st1 := st.set_properties n self.properties
      let st2 := st1.index_remove self.cls.name n
      ((NeoNode.update_index self.cls self.properties n st2).1, self,
        (NeoNode.update_index self.cls self.properties n st2).2)
  | none => self.create_ self.properties st

/-- A relationship manager as built by
`RelationshipDefinition.build_manager`: direction, relation type, manager
attribute name, the target class, the cache (`self.related`, keyed by
remote node id) and the back-reference to its origin object. -/
structure RelationshipManager where
  direction : Direction
  relation_type : String
  name : String
  node_class : NodeClass
  related : List (Nat × NeoNode)
  origin : NeoNode
deriving DecidableEq, Repr

/-- Schema-level declaration of an edge kind. -/
structure RelationshipDefinition where
  relation_type : String
  node_class : NodeClass
  direction : Direction
deriving DecidableEq, Repr

/-- `RelationshipDefinition.build_manager(origin, name)`. -/
def RelationshipDefinition.build_manager (d : RelationshipDefinition)
    (origin : NeoNode) (name : String) : RelationshipManager :=
  { direction := d.direction
    relation_type := d.relation_type
    name := name
    node_class := d.node_class
    related := []
    origin := origin }

/-- `self.related[key] = obj` on a Python dict: replace an existing binding
in place, append a new one otherwise. -/
def cacheInsert : List (Nat × NeoNode) → Nat → NeoNode →
    List (Nat × NeoNode)
  | [], k, v => [(k, v)]
  | (k', v') :: rest, k, v =>
      if k' == k then (k, v) :: rest else (k', v') :: cacheInsert rest k v

/-- The rehydration loop of `RelationshipManager.all`: each related store
node is wrapped via `node_class(**properties)` (which re-validates) and the
cache gains the wrapped node keyed by its id; a mid-loop exception leaves
the entries already made. -/
def RelationshipManager.load : List Nat → Store → RelationshipManager →
    RelationshipManager × Option PyErr
  | [], _, m => (m, none)
  | n :: ns, st, m =>
      match NeoNode.init m.node_class
          (((st.nodes.lookup n).getD []).filter
            (fun p => !startsWithUnderscore p.1)) with
      | .error e => (m, some e)
      | .ok obj =>
          RelationshipManager.load ns st
            { m with related := cacheInsert m.related n { obj with node? := some n } }

/-- `RelationshipManager.all()`: with a non-empty cache, return the cached
objects; otherwise query the store, and `return` bare (Python `None`,
carrying no nodes) when the store reports none — the cache stays untouched;
otherwise rehydrate, populate the cache and return its values. -/
def RelationshipManager.all (m : RelationshipManager) (st : Store) :
    RelationshipManager × Except PyErr (Option (List NeoNode)) :=
  if m.related.isEmpty then
    match m.origin.node? with
    | none => (m, .error (.attributeError "get_related_nodes"))
    | some o =>
        let related_nodes := st.get_related_nodes o m.direction m.relation_type
        if related_nodes.isEmpty then (m, .ok none)
        else
          match RelationshipManager.load related_nodes st m with
          | (m1, some e) => (m1, .error e)
          | (m1, none) => (m1, .ok (some (m1.related.map (fun p => p.2))))
  else (m, .ok (some (m.related.map (fun p => p.2))))

/-- `RelationshipManager.relate(obj)`: exact-class check first (the spec's
`TypeMismatch`), then the persistence check (`NodeNotPersisted`), then
get-or-create of the edge from the origin's node and the cache update keyed
by `obj._node.id`.  The origin is persisted in every use of the manager
(it is built on a live instance); a transient origin would only fail inside
the external client, which the model does not reach because the claims
hypothesise a persisted origin. -/
def RelationshipManager.relate (m : RelationshipManager) (obj : NeoNode)
    (st : Store) : Store × RelationshipManager × Option PyErr :=
  if obj.cls ≠ m.node_class then
    (st, m, some (.typeMismatch m.node_class.name))
  else
    match obj.node? with
    | none => (st, m, some .nodeNotPersisted)
    | some t =>
        match m.origin.node? with
        | none => (st, m, some (.attributeError "origin"))
        | some o =>
            (st.get_or_create_rel o m.relation_type t,
              { m with related := cacheInsert m.related t obj }, none)

/-- `RelationshipManager.unrelate(obj)`: first drop `obj` from the cache if
its id is a key; then fetch the matching edges — none is a no-op, more than
one raises the source's "Expected single relationship" (the spec's
`MultipleRelationships`), exactly one is deleted.  Accessing `.id` on a
transient `obj._node` (or querying from a transient origin) raises
`AttributeError` on `None`. -/
def RelationshipManager.unrelate (m : RelationshipManager) (obj : NeoNode)
    (st : Store) : Store × RelationshipManager × Option PyErr :=
  match obj.node? with
  | none => (st, m, some (.attributeError "id"))
  | some t =>
      let m1 :=
        if m.related.any (fun p => p.1 == t) then
          { m with related := m.related.filter (fun p => p.1 != t) }
        else m
      match m1.origin.node? with
      | none => (st, m1, some (.attributeError "get_relationships_with"))
      | some o =>
          match st.get_relationships_with o t m.direction m.relation_type with
          | [] => (st, m1, none)
          | [e] => (st.delete_rel e, m1, none)
          | rels => (st, m1, some (.multipleRelationships rels.length))

/-- The validation loop of `NeoIndex.search`: each keyword constraint is
checked against the class — an undeclared name makes `get_property` raise
`AttributeError` (so the `raise NoSuchProperty(k)` guarded by `if not p:`
is unreachable: a present attribute is truthy), a declared non-indexed
`Property` raises `PropertyNotIndexed`, and the value is validated. -/
def NeoIndex.search_checks (cls : NodeClass) :
    List (String × Value) → Except PyErr Unit
  | [] => .ok ()
  | (k, v) :: rest =>
    match cls.attrs.lookup k with
    | none => .error (.attributeError k)
    | some (.prop p) =>
        if !p.is_indexed then .error (.propertyNotIndexed k)
        else do
          let _ ← p.validate v
          NeoIndex.search_checks cls rest
    | some .nonProperty => .error (.attributeError "is_indexed")

/-- The store-side evaluation of the conjunction of equality constraints
(the lucene expression built from the kwargs, an external collaborator per
§6): the nodes of the class index satisfying every `(key, value)` term. -/
def NeoIndex.query_hits (st : Store) (idxName : String)
    (kwargs : List (String × Value)) : List Nat :=
  (((st.entries idxName).map (fun e => e.2.2)).dedup).filter
    (fun n => kwargs.all (fun kv => (st.entries idxName).contains (kv.1, kv.2, n)))

/-- `NeoIndex.search(**kwargs)`: run the validation loop, query the class
index with the conjunctive expression, and rehydrate every hit through the
class constructor, tagging each wrapper with its store identity. -/
def NeoIndex.search (cls : NodeClass) (st : Store)
    (kwargs : List (String × Value)) : Except PyErr (List NeoNode) := do
  let _ ← NeoIndex.search_checks cls kwargs
  (NeoIndex.query_hits st cls.name kwargs).foldrM
    (fun n acc => do
      let obj ← NeoNode.init cls
        (((st.nodes.lookup n).getD []).filter
          (fun p => !startsWithUnderscore p.1))
      .ok ({ obj with node? := some n } :: acc))
    []

/-! ## Concrete fixtures used by the closed witnesses -/

/-- A `StringProperty(unique_index=True)` descriptor. -/
def demoUnique : Property :=
  { unique_index := true, index := false, kind := .string }

/-- A `StringProperty(index=True)` descriptor. -/
def demoIndexed : Property :=
  { unique_index := false, index := true, kind := .string }

/-- A plain, non-indexed `StringProperty()` descriptor. -/
def demoPlain : Property :=
  { unique_index := false, index := false, kind := .string }

/-- A declared class with a unique-indexed `name` and a non-indexed
`nick`. -/
def demoPerson : NodeClass :=
  { name := "Person"
    attrs := [("name", .prop demoUnique), ("nick", .prop demoPlain)] }

/-- A second declared class, the relate target of the wrong type. -/
def demoPet : NodeClass :=
  { name := "Pet", attrs := [("name", .prop demoPlain)] }

/-- The store before anything was saved. -/
def demoEmpty : Store :=
  { nextId := 0, nodes := [], edges := [], indexes := [], categories := [] }

/-- A transient instance of `demoPerson`. -/
def demoJim : NeoNode :=
  { cls := demoPerson, node? := none, dict := [("name", .str "jim")] }

/-- A second transient instance carrying the same unique value. -/
def demoJim2 : NeoNode :=
  { cls := demoPerson, node? := none, dict := [("name", .str "jim")] }

/-- The store holding the category anchor (node 0) and Jim persisted as
node 1 with his category edge and unique-index entry. -/
def demoStore : Store :=
  { nextId := 2
    nodes := [(1, [("name", .str "jim")]), (0, [("category", .str "Person")])]
    edges := [(0, "PERSON", 1)]
    indexes := [("Person", [("name", .str "jim", 1)])]
    categories := [("Person", 0)] }

/-- Jim as a persisted object (remote identity 1). -/
def demoJimP : NeoNode :=
  { cls := demoPerson, node? := some 1, dict := [("name", .str "jim")] }

/-- A persisted instance acting as relationship origin (node 0 of
`demoRelStore`). -/
def demoOrigin : NeoNode :=
  { cls := demoPerson, node? := some 0, dict := [("name", .str "ann")] }

/-- A persisted relate/unrelate target (node 1 of `demoRelStore`). -/
def demoTarget : NeoNode :=
  { cls := demoPerson, node? := some 1, dict := [("name", .str "bob")] }

/-- A store with two persisted person nodes and two parallel `FRIEND`
edges between them. -/
def demoRelStore : Store :=
  { nextId := 2
    nodes := [(0, [("name", .str "ann")]), (1, [("name", .str "bob")])]
    edges := [(0, "FRIEND", 1), (0, "FRIEND", 1)]
    indexes := []
    categories := [] }

/-- A fresh `friends` manager on `demoOrigin` targeting `demoPerson`. -/
def demoManager : RelationshipManager :=
  { direction := .outgoing
    relation_type := "FRIEND"
    name := "friends"
    node_class := demoPerson
    related := []
    origin := demoOrigin }

/-- `demoManager` with `demoTarget` already cached. -/
def demoManagerCached : RelationshipManager :=
  { demoManager with related := [(1, demoTarget)] }

/-- A transient instance of the wrong class for `demoManager`. -/
def demoRex : NeoNode :=
  { cls := demoPet, node? := some 1, dict := [("name", .str "rex")] }

/-- `demoRelStore` with a single `FRIEND` edge. -/
def demoRelStoreOne : Store :=
  { demoRelStore with edges := [(0, "FRIEND", 1)] }

/-! ## Association-list and cache lemmas -/

theorem lookup_setAssoc_self {α : Type} (l : List (String × α)) (k : String)
    (v : α) : (setAssoc l k v).lookup k = some v := by
  induction l with
  | nil => simp [setAssoc]
  | cons hd tl ih =>
      obtain ⟨k', v'⟩ := hd
      by_cases h : k' = k
      · subst h
        simp [setAssoc]
      · simp only [setAssoc, beq_iff_eq, h, if_false, List.lookup]
        have : (k == k') = false := by simp [Ne.symm h]
        simp [this, ih]

theorem lookup_cacheInsert_self (c : List (Nat × NeoNode)) (k : Nat)
    (v : NeoNode) : (cacheInsert c k v).lookup k = some v := by
  induction c with
  | nil => simp [cacheInsert]
  | cons hd tl ih =>
      obtain ⟨k', v'⟩ := hd
      by_cases h : k' = k
      · subst h
        simp [cacheInsert]
      · simp only [cacheInsert, beq_iff_eq, h, if_false, List.lookup]
        have : (k == k') = false := by simp [Ne.symm h]
        simp [this, ih]

theorem lookup_filter_key_ne {α β : Type} [BEq α] [LawfulBEq α]
    (l : List (α × β)) (k : α) :
    (l.filter (fun p => p.1 != k)).lookup k = none := by
  induction l with
  | nil => simp
  | cons hd tl ih =>
      obtain ⟨k', v'⟩ := hd
      by_cases h : k' = k
      · subst h
        simpa using ih
      · have hne : (k' != k) = true := by simp [h]
        have hkk : (k == k') = false := by simp [Ne.symm h]
        simp [List.filter, hne, List.lookup, hkk, ih]

theorem lookup_eq_none_of_any_false {α β : Type} [BEq α] [LawfulBEq α]
    (l : List (α × β)) (k : α) (h : l.any (fun p => p.1 == k) = false) :
    l.lookup k = none := by
  induction l with
  | nil => simp
  | cons hd tl ih =>
      obtain ⟨k', v'⟩ := hd
      simp only [List.any_cons, Bool.or_eq_false_iff] at h
      have hkk : (k == k') = false := by
        rcases beq_iff_eq (a := k') (b := k) |>.symm with _
        cases hb : (k == k')
        · rfl
        · exact absurd (by simpa using (beq_iff_eq.mp hb).symm) (by
            intro hh
            simp [hh] at h)
      simp [List.lookup, hkk, ih h.2]

theorem lookup_isSome_of_any {α β : Type} [BEq α] [LawfulBEq α]
    (l : List (α × β)) (k : α) (h : l.any (fun p => p.1 == k) = true) :
    ∃ v, l.lookup k = some v := by
  induction l with
  | nil => simp at h
  | cons hd tl ih =>
      obtain ⟨k', v'⟩ := hd
      simp only [List.any_cons] at h
      by_cases hk : k' = k
      · subst hk
        exact ⟨v', by simp [List.lookup]⟩
      · have hkk : (k == k') = false := by simp [Ne.symm hk]
        have : tl.any (fun p => p.1 == k) = true := by
          rcases Bool.or_eq_true_iff.mp h with h1 | h2
          · exact absurd (beq_iff_eq.mp h1) hk
          · exact h2
        obtain ⟨v, hv⟩ := ih this
        exact ⟨v, by simp [List.lookup, hkk, hv]⟩

/-! ## Index-batch lemmas -/

theorem submit_mono (ops : List IndexOp) :
    ∀ (es : List IndexEntry), ∀ e ∈ es, e ∈ (IndexBatch.submit ops es).1 := by
  induction ops with
  | nil =>
      intro es e he
      simpa [IndexBatch.submit] using he
  | cons op ops ih =>
      intro es e he
      cases op with
      | addIfNone k v n =>
          by_cases hc : es.any (fun x => x.1 == k && x.2.1 == v) = true
          · simpa [IndexBatch.submit, hc] using ih es e he
          · simpa [IndexBatch.submit, hc] using
              ih ((k, v, n) :: es) e (List.mem_cons_of_mem _ he)
      | add k v n =>
          simpa [IndexBatch.submit] using
            ih ((k, v, n) :: es) e (List.mem_cons_of_mem _ he)

theorem submit_conflict_200 (ops : List IndexOp) :
    ∀ (es : List IndexEntry) (k : String) (v : Value) (n : Nat),
      IndexOp.addIfNone k v n ∈ ops →
      es.any (fun x => x.1 == k && x.2.1 == v) = true →
      200 ∈ (IndexBatch.submit ops es).2 := by
  induction ops with
  | nil =>
      intro es k v n hop _
      simp at hop
  | cons op ops ih =>
      intro es k v n hop hconf
      rcases List.mem_cons.mp hop with rfl | hop'
      · simp [IndexBatch.submit, hconf]
      · cases op with
        | addIfNone k' v' n' =>
            by_cases hc : es.any (fun x => x.1 == k' && x.2.1 == v') = true
            · simp [IndexBatch.submit, hc]
            · have hconf' :
                  ((k', v', n') :: es).any
                    (fun x => x.1 == k && x.2.1 == v) = true := by
                simp only [List.any_cons, hconf, Bool.or_true]
              simpa [IndexBatch.submit, hc] using
                ih ((k', v', n') :: es) k v n hop' hconf' 
        | add k' v' n' =>
            have hconf' :
                ((k', v', n') :: es).any
                  (fun x => x.1 == k && x.2.1 == v) = true := by
              simp only [List.any_cons, hconf, Bool.or_true]
            simpa [IndexBatch.submit] using
              ih ((k', v', n') :: es) k v n hop' hconf' 

theorem submit_success_insert (ops : List IndexOp) :
    ∀ (es : List IndexEntry) (k : String) (v : Value) (n : Nat),
      IndexOp.addIfNone k v n ∈ ops →
      200 ∉ (IndexBatch.submit ops es).2 →
      (k, v, n) ∈ (IndexBatch.submit ops es).1 := by
  induction ops with
  | nil =>
      intro es k v n hop _
      simp at hop
  | cons op ops ih =>
      intro es k v n hop h200
      rcases List.mem_cons.mp hop with rfl | hop'
      · by_cases hc : es.any (fun x => x.1 == k && x.2.1 == v) = true
        · exact absurd (by simp [IndexBatch.submit, hc]) h200
        · simpa [IndexBatch.submit, hc] using
            submit_mono ops ((k, v, n) :: es) (k, v, n) (List.mem_cons_self _ _)
      · cases op with
        | addIfNone k' v' n' =>
            by_cases hc : es.any (fun x => x.1 == k' && x.2.1 == v') = true
            · exact absurd (by simp [IndexBatch.submit, hc]) h200
            · have h200' : 200 ∉ (IndexBatch.submit ops ((k', v', n') :: es)).2 := by
                intro hmem
                exact h200 (by simp [IndexBatch.submit, hc, hmem])
              simpa [IndexBatch.submit, hc] using
                ih ((k', v', n') :: es) k v n hop' h200'
        | add k' v' n' =>
            have h200' : 200 ∉ (IndexBatch.submit ops ((k', v', n') :: es)).2 := by
              intro hmem
              exact h200 (by simp [IndexBatch.submit, hmem])
            simpa [IndexBatch.submit] using
              ih ((k', v', n') :: es) k v n hop' h200'

theorem submit_add_insert (ops : List IndexOp) :
    ∀ (es : List IndexEntry) (k : String) (v : Value) (n : Nat),
      IndexOp.add k v n ∈ ops →
      (k, v, n) ∈ (IndexBatch.submit ops es).1 := by
  induction ops with
  | nil =>
      intro es k v n hop
      simp at hop
  | cons op ops ih =>
      intro es k v n hop
      rcases List.mem_cons.mp hop with rfl | hop'
      · simpa [IndexBatch.submit] using
          submit_mono ops ((k, v, n) :: es) (k, v, n) (List.mem_cons_self _ _)
      · cases op with
        | addIfNone k' v' n' =>
            by_cases hc : es.any (fun x => x.1 == k' && x.2.1 == v') = true
            · simpa [IndexBatch.submit, hc] using ih es k v n hop'
            · simpa [IndexBatch.submit, hc] using
                ih ((k', v', n') :: es) k v n hop'
        | add k' v' n' =>
            simpa [IndexBatch.submit] using ih ((k', v', n') :: es) k v n hop'

theorem submit_provenance (ops : List IndexOp) :
    ∀ (es : List IndexEntry) (e : IndexEntry),
      e ∈ (IndexBatch.submit ops es).1 →
      e ∈ es ∨ ∃ op ∈ ops, op.entry = e := by
  induction ops with
  | nil =>
      intro es e he
      simp only [IndexBatch.submit] at he
      exact Or.inl he
  | cons op ops ih =>
      intro es e he
      cases op with
      | addIfNone k v n =>
          by_cases hc : es.any (fun x => x.1 == k && x.2.1 == v) = true
          · simp only [IndexBatch.submit, hc, if_true] at he
            rcases ih es e he with h | ⟨op, hop, hentry⟩
            · exact Or.inl h
            · exact Or.inr ⟨op, List.mem_cons_of_mem _ hop, hentry⟩
          · simp only [IndexBatch.submit, hc, Bool.false_eq_true, if_false] at he
            rcases ih ((k, v, n) :: es) e he with h | ⟨op, hop, hentry⟩
            · rcases List.mem_cons.mp h with rfl | h'
              · exact Or.inr ⟨.addIfNone k v n, List.mem_cons_self _ _, rfl⟩
              · exact Or.inl h'
            · exact Or.inr ⟨op, List.mem_cons_of_mem _ hop, hentry⟩
      | add k v n =>
          simp only [IndexBatch.submit] at he
          rcases ih ((k, v, n) :: es) e he with h | ⟨op, hop, hentry⟩
          · rcases List.mem_cons.mp h with rfl | h'
            · exact Or.inr ⟨.add k v n, List.mem_cons_self _ _, rfl⟩
            · exact Or.inl h'
          · exact Or.inr ⟨op, List.mem_cons_of_mem _ hop, hentry⟩

theorem submit_no200 (ops : List IndexOp) :
    ∀ (es : List IndexEntry), (ops.map IndexOp.keyval).Nodup →
      (∀ e ∈ es, (e.1, e.2.1) ∉ ops.map IndexOp.keyval) →
      200 ∉ (IndexBatch.submit ops es).2 := by
  induction ops with
  | nil =>
      intro es _ _
      simp [IndexBatch.submit]
  | cons op ops ih =>
      intro es hnd hfresh
      cases op with
      | addIfNone k v n =>
          have hc : es.any (fun x => x.1 == k && x.2.1 == v) = false := by
            rw [Bool.eq_false_iff]
            intro hany
            obtain ⟨e, he, hkv⟩ := List.any_eq_true.mp hany
            simp only [Bool.and_eq_true, beq_iff_eq] at hkv
            exact hfresh e he (by
              simp only [List.map_cons, List.mem_cons]
              exact Or.inl (by simp [IndexOp.keyval, hkv.1, hkv.2]))
          simp only [List.map_cons, List.nodup_cons] at hnd
          intro hmem
          simp only [IndexBatch.submit, hc, Bool.false_eq_true, if_false,
            List.mem_cons] at hmem
          rcases hmem with h200 | hmem
          · exact absurd h200 (by decide)
          · refine ih ((k, v, n) :: es) hnd.2 ?_ hmem
            intro e he
            rcases List.mem_cons.mp he with rfl | he'
            · simpa [IndexOp.keyval] using hnd.1
            · exact fun hin => hfresh e he' (List.mem_cons_of_mem _ hin)
      | add k v n =>
          simp only [List.map_cons, List.nodup_cons] at hnd
          intro hmem
          simp only [IndexBatch.submit, List.mem_cons] at hmem
          rcases hmem with h200 | hmem
          · exact absurd h200 (by decide)
          · refine ih ((k, v, n) :: es) hnd.2 ?_ hmem
            intro e he
            rcases List.mem_cons.mp he with rfl | he'
            · simpa [IndexOp.keyval] using hnd.1
            · exact fun hin => hfresh e he' (List.mem_cons_of_mem _ hin)

/-! ## Index-op construction lemmas -/

theorem bind_ok_eq {e a b : Type} (x : a) (f : a → Except e b) :
    (Except.ok x : Except e a) >>= f = f x := rfl

theorem bind_error_eq {e a b : Type} (err : e) (f : a → Except e b) :
    (Except.error err : Except e a) >>= f = Except.error err := rfl

theorem index_ops_ok (cls : NodeClass) (n : Nat) :
    ∀ (props : List (String × Value)),
      (∀ kv ∈ props, ∃ p, cls.attrs.lookup kv.1 = some (Attr.prop p)) →
      ∃ ops, NeoNode.index_ops cls n props = .ok ops := by
  intro props
  induction props with
  | nil =>
      intro _
      exact ⟨[], rfl⟩
  | cons kv rest ih =>
      intro h
      obtain ⟨k, v⟩ := kv
      obtain ⟨p, hp⟩ := h (k, v) (List.mem_cons_self _ _)
      obtain ⟨ops, hops⟩ := ih (fun kv hkv => h kv (List.mem_cons_of_mem _ hkv))
      refine ⟨if p.unique_index then .addIfNone k v n :: ops
              else if p.index then .add k v n :: ops else ops, ?_⟩
      by_cases h1 : p.unique_index = true <;> by_cases h2 : p.index = true <;>
        simp [NeoNode.index_ops, hp, hops, h1, h2] <;> rfl

theorem index_ops_cons_shape (cls : NodeClass) (n : Nat) (k : String)
    (v : Value) (rest : List (String × Value)) (ops : List IndexOp)
    (hok : NeoNode.index_ops cls n ((k, v) :: rest) = .ok ops) :
    ∃ p ops', cls.attrs.lookup k = some (Attr.prop p) ∧
      NeoNode.index_ops cls n rest = .ok ops' ∧
      ((p.unique_index = true ∧ ops = .addIfNone k v n :: ops') ∨
       (p.unique_index = false ∧ p.index = true ∧ ops = .add k v n :: ops') ∨
       (p.unique_index = false ∧ p.index = false ∧ ops = ops')) := by
  rcases hlk : cls.attrs.lookup k with _ | a
  · simp [NeoNode.index_ops, hlk] at hok
  rcases a with p | _
  · rcases hrec : NeoNode.index_ops cls n rest with e | ops'
    · simp [NeoNode.index_ops, hlk, hrec, bind_error_eq] at hok
    · refine ⟨p, ops', rfl, rfl, ?_⟩
      by_cases h1 : p.unique_index = true <;> by_cases h2 : p.index = true <;>
        simp only [NeoNode.index_ops, hlk, hrec, h1, h2, Bool.false_eq_true,
          if_true, if_false, bind_ok_eq, Except.ok.injEq] at hok <;>
        simp_all
  · simp [NeoNode.index_ops, hlk] at hok

theorem index_ops_mem_addIfNone (cls : NodeClass) (n : Nat) :
    ∀ (props : List (String × Value)) (ops : List IndexOp),
      NeoNode.index_ops cls n props = .ok ops →
      ∀ (k : String) (v : Value) (p : Property), (k, v) ∈ props →
        cls.attrs.lookup k = some (Attr.prop p) → p.unique_index = true →
        IndexOp.addIfNone k v n ∈ ops := by
  intro props
  induction props with
  | nil =>
      intro ops _ k v p hkv
      simp at hkv
  | cons kv rest ih =>
      intro ops hok k v p hkv hp hu
      obtain ⟨k', v'⟩ := kv
      obtain ⟨q, ops', hq, hrec, hshape⟩ :=
        index_ops_cons_shape cls n k' v' rest ops hok
      rcases List.mem_cons.mp hkv with heq | hkv'
      · obtain ⟨rfl, rfl⟩ := Prod.mk.injEq .. ▸ And.intro
          (congrArg Prod.fst heq) (congrArg Prod.snd heq)
        rw [hp] at hq
        obtain rfl : p = q := by
          have := Option.some.injEq .. ▸ hq
          simp at hq
          exact hq.symm ▸ rfl
        rcases hshape with ⟨_, rfl⟩ | ⟨hu', _, _⟩ | ⟨hu', _, _⟩
        · exact List.mem_cons_self _ _
        · rw [hu] at hu'
          cases hu'
        · rw [hu] at hu'
          cases hu'
      · have hmem := ih ops' hrec k v p hkv' hp hu
        rcases hshape with ⟨_, rfl⟩ | ⟨_, _, rfl⟩ | ⟨_, _, rfl⟩
        · exact List.mem_cons_of_mem _ hmem
        · exact List.mem_cons_of_mem _ hmem
        · exact hmem

theorem index_ops_mem_add (cls : NodeClass) (n : Nat) :
    ∀ (props : List (String × Value)) (ops : List IndexOp),
      NeoNode.index_ops cls n props = .ok ops →
      ∀ (k : String) (v : Value) (p : Property), (k, v) ∈ props →
        cls.attrs.lookup k = some (Attr.prop p) → p.unique_index = false →
        p.index = true → IndexOp.add k v n ∈ ops := by
  intro props
  induction props with
  | nil =>
      intro ops _ k v p hkv
      simp at hkv
  | cons kv rest ih =>
      intro ops hok k v p hkv hp hu hi
      obtain ⟨k', v'⟩ := kv
      obtain ⟨q, ops', hq, hrec, hshape⟩ :=
        index_ops_cons_shape cls n k' v' rest ops hok
      rcases List.mem_cons.mp hkv with heq | hkv'
      · obtain ⟨rfl, rfl⟩ := Prod.mk.injEq .. ▸ And.intro
          (congrArg Prod.fst heq) (congrArg Prod.snd heq)
        rw [hp] at hq
        obtain rfl : p = q := by
          simp at hq
          exact hq.symm ▸ rfl
        rcases hshape with ⟨hu', _⟩ | ⟨_, _, rfl⟩ | ⟨_, hi', _⟩
        · rw [hu] at hu'
          cases hu'
        · exact List.mem_cons_self _ _
        · rw [hi] at hi'
          cases hi'
      · have hmem := ih ops' hrec k v p hkv' hp hu hi
        rcases hshape with ⟨_, rfl⟩ | ⟨_, _, rfl⟩ | ⟨_, _, rfl⟩
        · exact List.mem_cons_of_mem _ hmem
        · exact List.mem_cons_of_mem _ hmem
        · exact hmem

theorem index_ops_keyval_sublist (cls : NodeClass) (n : Nat) :
    ∀ (props : List (String × Value)) (ops : List IndexOp),
      NeoNode.index_ops cls n props = .ok ops →
      (ops.map IndexOp.keyval).Sublist props := by
  intro props
  induction props with
  | nil =>
      intro ops hok
      simp only [NeoNode.index_ops, Except.ok.injEq] at hok
      simp [← hok]
  | cons kv rest ih =>
      intro ops hok
      obtain ⟨k', v'⟩ := kv
      obtain ⟨q, ops', _, hrec, hshape⟩ :=
        index_ops_cons_shape cls n k' v' rest ops hok
      have hsub := ih ops' hrec
      rcases hshape with ⟨_, rfl⟩ | ⟨_, _, rfl⟩ | ⟨_, _, rfl⟩
      · simpa [IndexOp.keyval] using List.Sublist.cons₂ (k', v') hsub
      · simpa [IndexOp.keyval] using List.Sublist.cons₂ (k', v') hsub
      · exact List.Sublist.cons _ hsub

theorem index_ops_node_eq (cls : NodeClass) (n : Nat) :
    ∀ (props : List (String × Value)) (ops : List IndexOp),
      NeoNode.index_ops cls n props = .ok ops →
      ∀ op ∈ ops, op.node = n := by
  intro props
  induction props with
  | nil =>
      intro ops hok op hop
      simp only [NeoNode.index_ops, Except.ok.injEq] at hok
      rw [← hok] at hop
      simp at hop
  | cons kv rest ih =>
      intro ops hok op hop
      obtain ⟨k', v'⟩ := kv
      obtain ⟨q, ops', _, hrec, hshape⟩ :=
        index_ops_cons_shape cls n k' v' rest ops hok
      rcases hshape with ⟨_, rfl⟩ | ⟨_, _, rfl⟩ | ⟨_, _, rfl⟩
      · rcases List.mem_cons.mp hop with rfl | hop'
        · rfl
        · exact ih ops' hrec op hop'
      · rcases List.mem_cons.mp hop with rfl | hop'
        · rfl
        · exact ih ops' hrec op hop'
      · exact ih _ hrec op hop

/-! ## Store-operation lemmas -/

theorem mem_of_lookup {α β : Type} [BEq α] [LawfulBEq α] (l : List (α × β))
    (k : α) (v : β) (h : l.lookup k = some v) : (k, v) ∈ l := by
  induction l with
  | nil => simp at h
  | cons hd tl ih =>
      obtain ⟨k', v'⟩ := hd
      by_cases hk : (k == k') = true
      · obtain rfl := beq_iff_eq.mp hk
        have hv : v' = v := by simpa [List.lookup] using h
        rw [← hv]
        exact List.mem_cons_self _ _
      · rw [Bool.not_eq_true] at hk
        simp only [List.lookup, hk] at h
        exact List.mem_cons_of_mem _ (ih h)

theorem lookup_setNodeProps (l : List (Nat × List (String × Value)))
    (n : Nat) (props : List (String × Value)) (h : (l.lookup n).isSome) :
    (setNodeProps l n props).lookup n = some props := by
  induction l with
  | nil => simp at h
  | cons hd tl ih =>
      obtain ⟨k, v⟩ := hd
      by_cases hk : k = n
      · subst hk
        simp [setNodeProps, List.lookup]
      · have hkn : (k == n) = false := by simp [hk]
        have hbn : (n == k) = false := by simp [Ne.symm hk]
        simp only [List.lookup, hbn] at h
        simp only [setNodeProps, hkn, Bool.false_eq_true, if_false,
          List.lookup, hbn]
        exact ih h

theorem category_indexes (st : Store) (name : String) :
    (st.category name).1.indexes = st.indexes := by
  rcases h : st.categories.lookup name <;> simp [Store.category, h]

theorem category_lookup_self (st : Store) (name : String) :
    ((st.category name).1.categories).lookup name =
      some (st.category name).2 := by
  rcases h : st.categories.lookup name with _ | c <;>
    simp [Store.category, h]

theorem category_of_lookup (st : Store) (name : String) (c : Nat)
    (h : st.categories.lookup name = some c) : st.category name = (st, c) := by
  simp [Store.category, h]

theorem create_node_indexes (st : Store) (tn : String)
    (props : List (String × Value)) :
    (st.create_node tn props).1.indexes = st.indexes := by
  simp [Store.create_node, category_indexes]

theorem create_node_categories (st : Store) (tn : String)
    (props : List (String × Value)) :
    (st.create_node tn props).1.categories = (st.category tn).1.categories :=
  rfl

theorem update_index_fields (cls : NodeClass) (props : List (String × Value))
    (n : Nat) (st : Store) :
    (NeoNode.update_index cls props n st).1.nodes = st.nodes ∧
    (NeoNode.update_index cls props n st).1.edges = st.edges ∧
    (NeoNode.update_index cls props n st).1.categories = st.categories ∧
    (NeoNode.update_index cls props n st).1.nextId = st.nextId := by
  rcases h : NeoNode.index_ops cls n props with e | ops
  · simp [NeoNode.update_index, h]
  · cases hs : (IndexBatch.submit ops (st.entries cls.name)).2.contains 200 <;>
      simp only [NeoNode.update_index, h, hs, Bool.false_eq_true, if_false,
        if_true, and_self]

theorem update_index_entries_eq (cls : NodeClass)
    (props : List (String × Value)) (n : Nat) (st : Store)
    (ops : List IndexOp) (hok : NeoNode.index_ops cls n props = .ok ops) :
    (NeoNode.update_index cls props n st).1.entries cls.name =
      (IndexBatch.submit ops (st.entries cls.name)).1 := by
  have key : ∀ (es : List IndexEntry),
      Store.entries { st with indexes := setAssoc st.indexes cls.name es }
        cls.name = es := by
    intro es
    show (List.lookup cls.name (setAssoc st.indexes cls.name es)).getD [] = es
    rw [lookup_setAssoc_self]
    rfl
  cases hs : (IndexBatch.submit ops (st.entries cls.name)).2.contains 200 <;>
    simp only [NeoNode.update_index, hok, hs, Bool.false_eq_true, if_false,
      if_true] <;> exact key _

theorem update_index_err_eq (cls : NodeClass)
    (props : List (String × Value)) (n : Nat) (st : Store)
    (ops : List IndexOp) (hok : NeoNode.index_ops cls n props = .ok ops) :
    (NeoNode.update_index cls props n st).2 =
      (if ((IndexBatch.submit ops (st.entries cls.name)).2).contains 200 then
        some PyErr.notUnique else none) := by
  cases hs : (IndexBatch.submit ops (st.entries cls.name)).2.contains 200 <;>
    simp only [NeoNode.update_index, hok, hs, Bool.false_eq_true, if_false,
      if_true]

theorem index_remove_entries_self (st : Store) (name : String) (n : Nat) :
    (st.index_remove name n).entries name =
      (st.entries name).filter (fun e => e.2.2 != n) := by
  simp [Store.index_remove, Store.entries, lookup_setAssoc_self]

/-! ## Well-formedness lemmas -/

theorem wf_category (st : Store) (name : String) (h : st.wf) :
    (st.category name).1.wf := by
  obtain ⟨h1, h2, h3⟩ := h
  rcases hl : st.categories.lookup name with _ | c
  · refine ⟨?_, ?_, ?_⟩ <;> simp only [Store.category, hl]
    · intro p hp
      rcases List.mem_cons.mp hp with rfl | hp'
      · exact Nat.lt_succ_self _
      · exact Nat.lt_succ_of_lt (h1 p hp')
    · intro e he
      exact ⟨Nat.lt_succ_of_lt (h2 e he).1, Nat.lt_succ_of_lt (h2 e he).2⟩
    · intro c hc
      rcases List.mem_cons.mp hc with rfl | hc'
      · exact Nat.lt_succ_self _
      · exact Nat.lt_succ_of_lt (h3 c hc')
  · simpa [Store.category, hl] using ⟨h1, h2, h3⟩

theorem category_snd_lt (st : Store) (name : String) (h : st.wf) :
    (st.category name).2 < (st.category name).1.nextId := by
  rcases hl : st.categories.lookup name with _ | c
  · simp [Store.category, hl]
  · simpa [Store.category, hl] using
      h.2.2 (name, c) (mem_of_lookup st.categories name c hl)

theorem wf_create_node (st : Store) (tn : String)
    (props : List (String × Value)) (h : st.wf) :
    (st.create_node tn props).1.wf := by
  have hwfc := wf_category st tn h
  have hlt := category_snd_lt st tn h
  obtain ⟨h1, h2, h3⟩ := hwfc
  refine ⟨?_, ?_, ?_⟩ <;> simp only [Store.create_node]
  · intro p hp
    rcases List.mem_cons.mp hp with rfl | hp'
    · exact Nat.lt_succ_self _
    · exact Nat.lt_succ_of_lt (h1 p hp')
  · intro e he
    rcases List.mem_cons.mp he with rfl | he'
    · exact ⟨Nat.lt_succ_of_lt hlt, Nat.lt_succ_self _⟩
    · exact ⟨Nat.lt_succ_of_lt (h2 e he').1, Nat.lt_succ_of_lt (h2 e he').2⟩
  · intro c hc
    exact Nat.lt_succ_of_lt (h3 c hc)

theorem wf_of_fields_eq (st st' : Store) (hn : st'.nodes = st.nodes)
    (he : st'.edges = st.edges) (hc : st'.categories = st.categories)
    (hi : st'.nextId = st.nextId) (h : st.wf) : st'.wf := by
  unfold Store.wf at *
  rw [hn, he, hc, hi]
  exact h

theorem wf_update_index (cls : NodeClass) (props : List (String × Value))
    (n : Nat) (st : Store) (h : st.wf) :
    (NeoNode.update_index cls props n st).1.wf := by
  obtain ⟨f1, f2, f3, f4⟩ := update_index_fields cls props n st
  exact wf_of_fields_eq st _ f1 f2 f3 f4 h

theorem contains_false_of_not_mem {α : Type} [BEq α] [LawfulBEq α]
    (l : List α) (a : α) (h : a ∉ l) : l.contains a = false := by
  cases hc : l.contains a
  · rfl
  · exact absurd (List.elem_iff.mp hc) h

theorem contains_true_of_mem {α : Type} [BEq α] [LawfulBEq α]
    (l : List α) (a : α) (h : a ∈ l) : l.contains a = true :=
  List.elem_iff.mpr h

/-! ## Claim theorems -/

/-- **C9.** Declaring a `Property` with both `unique_index` and `index`
fails at declaration time, declaring one with both `unique_index` and
`blank` fails at declaration time, and every successfully declared
descriptor satisfies the exclusivity invariant (its stored flags are the
declared ones and neither excluded combination was supplied). -/
theorem C9_descriptor_exclusivity :
    (∀ (b : Bool) (k : PropKind), ∃ e, Property.init true true b k = .error e) ∧
    (∀ (i : Bool) (k : PropKind), ∃ e, Property.init true i true k = .error e) ∧
    (∀ (u i b : Bool) (k : PropKind) (p : Property),
      Property.init u i b k = .ok p →
        ¬(u = true ∧ i = true) ∧ ¬(u = true ∧ b = true) ∧
        p.unique_index = u ∧ p.index = i ∧ p.kind = k) := by
  refine ⟨fun b k => ⟨_, rfl⟩, fun i k => ?_, fun u i b k p h => ?_⟩
  · cases i <;> exact ⟨_, rfl⟩
  · cases u <;> cases i <;> cases b <;> simp_all [Property.init] <;>
      subst h <;> simp

/-- **C9 witness.** Both excluded combinations fail concretely, and a
plainly declared string descriptor comes back with its flags. -/
theorem C9_descriptor_exclusivity_witness :
    (∃ e, Property.init true true false .string = .error e) ∧
    (∃ e, Property.init true false true .string = .error e) ∧
    (¬(false = true ∧ false = true) ∧ ¬(false = true ∧ false = true) ∧
      demoPlain.unique_index = false ∧ demoPlain.index = false ∧
      demoPlain.kind = .string) :=
  ⟨C9_descriptor_exclusivity.1 false .string,
   C9_descriptor_exclusivity.2.1 false .string,
   C9_descriptor_exclusivity.2.2 false false false .string demoPlain rfl⟩

/-- **C3.** On a manager with an empty cache whose store reports no node
connected to the origin via the declared relation type and direction,
`all()` returns the empty result (the source's bare `return`, carrying no
nodes) and leaves the cache unpopulated. -/
theorem C3_all_empty_store_result (m : RelationshipManager) (st : Store)
    (o : Nat) (hc : m.related = []) (ho : m.origin.node? = some o)
    (hnone : st.get_related_nodes o m.direction m.relation_type = []) :
    m.all st = (m, .ok none) := by
  unfold RelationshipManager.all
  rw [hc, ho]
  simp [hnone]

/-- **C3 witness.** A fresh manager over the store that has no `FRIEND`
edge from its origin. -/
theorem C3_all_empty_store_result_witness :
    demoManager.all demoStore = (demoManager, .ok none) :=
  C3_all_empty_store_result demoManager demoStore 0 rfl rfl rfl

/-- **C2** (at the failing input).  A search constraint over a property
that is declared but not indexed does fail with `PropertyNotIndexed`, but a
constraint over an undeclared property fails with the builtin
`AttributeError` coming out of `getattr`, not with `NoSuchProperty`:
`get_property` builds its "is not a Property" exception without raising it,
and the `raise NoSuchProperty(k)` guard in `search` is unreachable because
a present attribute is truthy. -/
theorem C2_search_error_taxonomy_at_failing_input :
    NeoIndex.search demoPerson demoEmpty [("age", .int 1)] =
      .error (.attributeError "age") ∧
    NeoIndex.search demoPerson demoEmpty [("nick", .str "bo")] =
      .error (.propertyNotIndexed "nick") :=
  ⟨rfl, rfl⟩

/-- A transient save into a store whose class index is empty succeeds:
no `NotUnique` is raised, the object comes back persisted with the freshly
created node's id, the category anchor ends up registered, the store stays
well-formed, and every unique-indexed property value of the object is now
an index entry for the new node. -/
theorem save_fresh (cls : NodeClass) (d : List (String × Value)) (st : Store)
    (hd : ∀ kv ∈ (NeoNode.mk cls none d).properties,
      ∃ q, cls.attrs.lookup kv.1 = some (Attr.prop q))
    (hnd : (NeoNode.mk cls none d).properties.Nodup)
    (hempty : st.entries cls.name = [])
    (hwf : st.wf) :
    ((NeoNode.mk cls none d).save st).2.2 = none ∧
    ((NeoNode.mk cls none d).save st).2.1 =
      NeoNode.mk cls
        (some (st.create_node cls.name (NeoNode.mk cls none d).properties).2)
        d ∧
    (((NeoNode.mk cls none d).save st).1.categories).lookup cls.name =
      some (st.category cls.name).2 ∧
    ((NeoNode.mk cls none d).save st).1.wf ∧
    (∀ k v p, (k, v) ∈ (NeoNode.mk cls none d).properties →
      cls.attrs.lookup k = some (Attr.prop p) → p.unique_index = true →
      (k, v, (st.create_node cls.name (NeoNode.mk cls none d).properties).2) ∈
        ((NeoNode.mk cls none d).save st).1.entries cls.name) := by
  obtain ⟨ops, hops⟩ := index_ops_ok cls
    (st.create_node cls.name (NeoNode.mk cls none d).properties).2
    (NeoNode.mk cls none d).properties hd
  have hentsA :
      (st.create_node cls.name
        (NeoNode.mk cls none d).properties).1.entries cls.name = [] := by
    show ((st.create_node cls.name
        (NeoNode.mk cls none d).properties).1.indexes.lookup
          cls.name).getD [] = []
    rw [create_node_indexes]
    exact hempty
  have hndops : (ops.map IndexOp.keyval).Nodup :=
    (index_ops_keyval_sublist cls _ _ ops hops).nodup hnd
  have h200 : 200 ∉ (IndexBatch.submit ops []).2 :=
    submit_no200 ops [] hndops (by simp)
  have hcont :
      (IndexBatch.submit ops
        ((st.create_node cls.name
          (NeoNode.mk cls none d).properties).1.entries
            cls.name)).2.contains 200 = false := by
    rw [hentsA]
    exact contains_false_of_not_mem _ _ h200
  have hupd :
      (NeoNode.update_index cls (NeoNode.mk cls none d).properties
        (st.create_node cls.name (NeoNode.mk cls none d).properties).2
        (st.create_node cls.name
          (NeoNode.mk cls none d).properties).1).2 = none := by
    rw [update_index_err_eq cls _ _ _ ops hops, hcont]
    simp
  have hsave : (NeoNode.mk cls none d).save st =
      ((NeoNode.update_index cls (NeoNode.mk cls none d).properties
          (st.create_node cls.name (NeoNode.mk cls none d).properties).2
          (st.create_node cls.name
            (NeoNode.mk cls none d).properties).1).1,
        NeoNode.mk cls
          (some (st.create_node cls.name
            (NeoNode.mk cls none d).properties).2) d,
        none) := by
    simp only [NeoNode.save, NeoNode.create_]
    rw [hupd]
  have f := update_index_fields cls (NeoNode.mk cls none d).properties
    (st.create_node cls.name (NeoNode.mk cls none d).properties).2
    (st.create_node cls.name (NeoNode.mk cls none d).properties).1
  refine ⟨by rw [hsave], by rw [hsave], ?_, ?_, ?_⟩
  · rw [hsave]
    show ((NeoNode.update_index cls (NeoNode.mk cls none d).properties
        (st.create_node cls.name (NeoNode.mk cls none d).properties).2
        (st.create_node cls.name
          (NeoNode.mk cls none d).properties).1).1.categories).lookup
          cls.name = some (st.category cls.name).2
    rw [f.2.2.1, create_node_categories]
    exact category_lookup_self st cls.name
  · rw [hsave]
    exact wf_update_index cls _ _ _ (wf_create_node st cls.name _ hwf)
  · intro k v p hkv hk hu
    rw [hsave]
    show (k, v, (st.create_node cls.name
        (NeoNode.mk cls none d).properties).2) ∈
      (NeoNode.update_index cls (NeoNode.mk cls none d).properties
        (st.create_node cls.name (NeoNode.mk cls none d).properties).2
        (st.create_node cls.name
          (NeoNode.mk cls none d).properties).1).1.entries cls.name
    rw [update_index_entries_eq cls _ _ _ ops hops, hentsA]
    exact submit_success_insert ops [] k v _
      (index_ops_mem_addIfNone cls _ _ ops hops k v p hkv hk hu) h200

/-- A transient save whose unique-indexed value already has an index entry
fails with `NotUnique`; the rollback (running `delete()` on the half-made
object) removes the just-created node and its single category edge, so the
store's node and relationship tables come back unchanged and the object
comes back transient. -/
theorem save_conflict (cls : NodeClass) (k : String) (p : Property)
    (v : Value) (d : List (String × Value)) (st : Store) (c : Nat)
    (hk : cls.attrs.lookup k = some (Attr.prop p))
    (hu : p.unique_index = true)
    (hd : ∀ kv ∈ (NeoNode.mk cls none d).properties,
      ∃ q, cls.attrs.lookup kv.1 = some (Attr.prop q))
    (hkd : (k, v) ∈ (NeoNode.mk cls none d).properties)
    (hcat : st.categories.lookup cls.name = some c)
    (hconf : (st.entries cls.name).any
      (fun x => x.1 == k && x.2.1 == v) = true)
    (hwfst : st.wf) :
    ((NeoNode.mk cls none d).save st).2.2 = some PyErr.notUnique ∧
    ((NeoNode.mk cls none d).save st).2.1.node? = none ∧
    ((NeoNode.mk cls none d).save st).1.nodes = st.nodes ∧
    ((NeoNode.mk cls none d).save st).1.edges = st.edges := by
  obtain ⟨ops, hops⟩ := index_ops_ok cls
    (st.create_node cls.name (NeoNode.mk cls none d).properties).2
    (NeoNode.mk cls none d).properties hd
  have hcat' : Store.category st cls.name = (st, c) :=
    category_of_lookup st cls.name c hcat
  have hcreate : Store.create_node st cls.name
      (NeoNode.mk cls none d).properties =
      ({ st with
          nextId := st.nextId + 1
          nodes := (st.nextId, (NeoNode.mk cls none d).properties) :: st.nodes
          edges := (c, cls.name.toUpper, st.nextId) :: st.edges },
        st.nextId) := by
    simp [Store.create_node, hcat']
  have hents : ((st.create_node cls.name
      (NeoNode.mk cls none d).properties).1).entries cls.name =
      st.entries cls.name := by
    show ((st.create_node cls.name
        (NeoNode.mk cls none d).properties).1.indexes.lookup
          cls.name).getD [] = _
    rw [create_node_indexes]
    rfl
  have hcont : (IndexBatch.submit ops
      (((st.create_node cls.name
        (NeoNode.mk cls none d).properties).1).entries
          cls.name)).2.contains 200 = true := by
    rw [hents]
    exact contains_true_of_mem _ _
      (submit_conflict_200 ops _ k v _
        (index_ops_mem_addIfNone cls _ _ ops hops k v p hkd hk hu) hconf)
  have hupd : (NeoNode.update_index cls (NeoNode.mk cls none d).properties
      (st.create_node cls.name (NeoNode.mk cls none d).properties).2
      (st.create_node cls.name
        (NeoNode.mk cls none d).properties).1).2 = some PyErr.notUnique := by
    rw [update_index_err_eq cls _ _ _ ops hops, hcont]
    simp
  have hsave : (NeoNode.mk cls none d).save st =
      ((NeoNode.update_index cls (NeoNode.mk cls none d).properties
          (st.create_node cls.name (NeoNode.mk cls none d).properties).2
          (st.create_node cls.name
            (NeoNode.mk cls none d).properties).1).1.delete_node
        (st.create_node cls.name (NeoNode.mk cls none d).properties).2,
        NeoNode.mk cls none d, some PyErr.notUnique) := by
    simp only [NeoNode.save, NeoNode.create_, NeoNode.delete]
    rw [hupd]
  have f := update_index_fields cls (NeoNode.mk cls none d).properties
    (st.create_node cls.name (NeoNode.mk cls none d).properties).2
    (st.create_node cls.name (NeoNode.mk cls none d).properties).1
  have hN : (st.create_node cls.name
      (NeoNode.mk cls none d).properties).2 = st.nextId := by
    rw [hcreate]
  refine ⟨by rw [hsave], by rw [hsave], ?_, ?_⟩
  · rw [hsave]
    show ((NeoNode.update_index cls (NeoNode.mk cls none d).properties
        (st.create_node cls.name (NeoNode.mk cls none d).properties).2
        (st.create_node cls.name
          (NeoNode.mk cls none d).properties).1).1.nodes).filter
      (fun q => q.1 != (st.create_node cls.name
        (NeoNode.mk cls none d).properties).2) = st.nodes
    rw [f.1, hN, hcreate]
    show ((st.nextId, (NeoNode.mk cls none d).properties) ::
        st.nodes).filter (fun q => q.1 != st.nextId) = st.nodes
    rw [List.filter_cons]
    simp only [bne_self_eq_false, Bool.false_eq_true, if_false]
    rw [List.filter_eq_self]
    intro q hq
    simpa [bne_iff_ne] using Nat.ne_of_lt (hwfst.1 q hq)
  · rw [hsave]
    show ((NeoNode.update_index cls (NeoNode.mk cls none d).properties
        (st.create_node cls.name (NeoNode.mk cls none d).properties).2
        (st.create_node cls.name
          (NeoNode.mk cls none d).properties).1).1.edges).filter
      (fun e => e.1 != (st.create_node cls.name
          (NeoNode.mk cls none d).properties).2 &&
        e.2.2 != (st.create_node cls.name
          (NeoNode.mk cls none d).properties).2) = st.edges
    rw [f.2.1, hN, hcreate]
    show ((c, cls.name.toUpper, st.nextId) ::
        st.edges).filter
      (fun e => e.1 != st.nextId && e.2.2 != st.nextId) = st.edges
    rw [List.filter_cons]
    simp only [bne_self_eq_false, Bool.and_false, Bool.false_eq_true, if_false]
    rw [List.filter_eq_self]
    intro e he
    have h1 := Nat.ne_of_lt (hwfst.2.1 e he).1
    have h2 := Nat.ne_of_lt (hwfst.2.1 e he).2
    simp [bne_iff_ne, h1, h2]

/-- **C1.** Saving two distinct transient objects of the same class that
carry the same value for a `unique_index` property (into a store whose
class index starts empty): the first save succeeds and assigns a remote
identity; the second save fails with `NotUnique`, the second object's
remote identity is absent after the failure, and the store's node and
relationship tables are exactly what they were after the first save — the
just-created node and its single category edge have been rolled back.
(A transient object of class `cls` with slots `d` is exactly the record
`⟨cls, none, d⟩`, by structure eta.) -/
theorem C1_unique_save_conflict_rollback
    (cls : NodeClass) (k : String) (p : Property) (v : Value)
    (d1 d2 : List (String × Value)) (st0 : Store)
    (hk : cls.attrs.lookup k = some (Attr.prop p))
    (hu : p.unique_index = true)
    (hd1 : ∀ kv ∈ (NeoNode.mk cls none d1).properties,
      ∃ q, cls.attrs.lookup kv.1 = some (Attr.prop q))
    (hd2 : ∀ kv ∈ (NeoNode.mk cls none d2).properties,
      ∃ q, cls.attrs.lookup kv.1 = some (Attr.prop q))
    (hk1 : (k, v) ∈ (NeoNode.mk cls none d1).properties)
    (hk2 : (k, v) ∈ (NeoNode.mk cls none d2).properties)
    (hnd : (NeoNode.mk cls none d1).properties.Nodup)
    (hempty : st0.entries cls.name = [])
    (hwf : st0.wf) :
    ((NeoNode.mk cls none d1).save st0).2.2 = none ∧
    (∃ n1, ((NeoNode.mk cls none d1).save st0).2.1.node? = some n1) ∧
    ((NeoNode.mk cls none d2).save
      ((NeoNode.mk cls none d1).save st0).1).2.2 = some PyErr.notUnique ∧
    ((NeoNode.mk cls none d2).save
      ((NeoNode.mk cls none d1).save st0).1).2.1.node? = none ∧
    ((NeoNode.mk cls none d2).save
      ((NeoNode.mk cls none d1).save st0).1).1.nodes =
      ((NeoNode.mk cls none d1).save st0).1.nodes ∧
    ((NeoNode.mk cls none d2).save
      ((NeoNode.mk cls none d1).save st0).1).1.edges =
      ((NeoNode.mk cls none d1).save st0).1.edges := by
  obtain ⟨ha, hb, hcat1, hwf1, hins⟩ := save_fresh cls d1 st0 hd1 hnd hempty hwf
  have hmem1 := hins k v p hk1 hk hu
  have hconf : (((NeoNode.mk cls none d1).save st0).1.entries cls.name).any
      (fun x => x.1 == k && x.2.1 == v) = true :=
    List.any_eq_true.mpr ⟨_, hmem1, by simp⟩
  obtain ⟨h2a, h2b, h2c, h2d⟩ := save_conflict cls k p v d2
    ((NeoNode.mk cls none d1).save st0).1 (st0.category cls.name).2
    hk hu hd2 hk2 hcat1 hconf hwf1
  refine ⟨ha,
    ⟨(st0.create_node cls.name (NeoNode.mk cls none d1).properties).2, ?_⟩,
    h2a, h2b, h2c, h2d⟩
  rw [hb]

/-- **C1 witness.** Two transient Jims with the same unique `name` saved
into the empty store: the first succeeds and persists, the second fails
with `NotUnique` and is rolled back completely. -/
theorem C1_unique_save_conflict_rollback_witness :
    ((NeoNode.mk demoPerson none [("name", .str "jim")]).save
      demoEmpty).2.2 = none ∧
    (∃ n1, ((NeoNode.mk demoPerson none [("name", .str "jim")]).save
      demoEmpty).2.1.node? = some n1) ∧
    ((NeoNode.mk demoPerson none [("name", .str "jim")]).save
      ((NeoNode.mk demoPerson none [("name", .str "jim")]).save
        demoEmpty).1).2.2 = some PyErr.notUnique ∧
    ((NeoNode.mk demoPerson none [("name", .str "jim")]).save
      ((NeoNode.mk demoPerson none [("name", .str "jim")]).save
        demoEmpty).1).2.1.node? = none ∧
    ((NeoNode.mk demoPerson none [("name", .str "jim")]).save
      ((NeoNode.mk demoPerson none [("name", .str "jim")]).save
        demoEmpty).1).1.nodes =
      ((NeoNode.mk demoPerson none [("name", .str "jim")]).save
        demoEmpty).1.nodes ∧
    ((NeoNode.mk demoPerson none [("name", .str "jim")]).save
      ((NeoNode.mk demoPerson none [("name", .str "jim")]).save
        demoEmpty).1).1.edges =
      ((NeoNode.mk demoPerson none [("name", .str "jim")]).save
        demoEmpty).1.edges := by
  have hd : ∀ kv ∈ (NeoNode.mk demoPerson none
      [("name", Value.str "jim")]).properties,
      ∃ q, demoPerson.attrs.lookup kv.1 = some (Attr.prop q) := by
    intro kv hkv
    have hlist : (NeoNode.mk demoPerson none
        [("name", Value.str "jim")]).properties =
        [("name", Value.str "jim")] := rfl
    rw [hlist] at hkv
    simp only [List.mem_singleton] at hkv
    subst hkv
    exact ⟨demoUnique, rfl⟩
  exact C1_unique_save_conflict_rollback demoPerson "name" demoUnique
    (.str "jim") [("name", .str "jim")] [("name", .str "jim")] demoEmpty
    rfl rfl hd hd (by decide) (by decide) (by decide) rfl
    (by refine ⟨?_, ?_, ?_⟩ <;> intro x hx <;> cases hx)

/-- **C4.** `save()` on a persisted node overwrites the store node's
properties, strips every existing index entry for the node and re-runs the
index-update step (so an entry for this node survives only if it carries
one of the node's current property values, and on success every indexed
current value is re-inserted); the only failure the step itself produces
is `NotUnique`, and nothing is rolled back then: the object keeps its
remote identity and the store keeps the overwritten properties. -/
theorem C4_persisted_save_no_rollback (obj : NeoNode) (n : Nat) (st : Store)
    (hp : obj.node? = some n)
    (hd : ∀ kv ∈ obj.properties,
      ∃ q, obj.cls.attrs.lookup kv.1 = some (Attr.prop q))
    (hn : (st.nodes.lookup n).isSome) :
    (obj.save st).2.1 = obj ∧
    ((obj.save st).1.nodes).lookup n = some obj.properties ∧
    (∀ en ∈ (obj.save st).1.entries obj.cls.name, en.2.2 = n →
      (en.1, en.2.1) ∈ obj.properties) ∧
    ((obj.save st).2.2 = none ∨ (obj.save st).2.2 = some PyErr.notUnique) ∧
    ((obj.save st).2.2 = none →
      ∀ k v q, (k, v) ∈ obj.properties →
        obj.cls.attrs.lookup k = some (Attr.prop q) → q.is_indexed = true →
        (k, v, n) ∈ (obj.save st).1.entries obj.cls.name) := by
  obtain ⟨ops, hops⟩ := index_ops_ok obj.cls n obj.properties hd
  have hsave : obj.save st =
      ((NeoNode.update_index obj.cls obj.properties n
          ((st.set_properties n obj.properties).index_remove obj.cls.name n)).1,
        obj,
        (NeoNode.update_index obj.cls obj.properties n
          ((st.set_properties n obj.properties).index_remove obj.cls.name n)).2) := by
    simp [NeoNode.save, hp]
  have f := update_index_fields obj.cls obj.properties n
    ((st.set_properties n obj.properties).index_remove obj.cls.name n)
  have hentries := update_index_entries_eq obj.cls obj.properties n
    ((st.set_properties n obj.properties).index_remove obj.cls.name n) ops hops
  have herr := update_index_err_eq obj.cls obj.properties n
    ((st.set_properties n obj.properties).index_remove obj.cls.name n) ops hops
  refine ⟨?_, ?_, ?_, ?_, ?_⟩
  · rw [hsave]
  · rw [hsave]
    show (NeoNode.update_index obj.cls obj.properties n
        ((st.set_properties n obj.properties).index_remove obj.cls.name
          n)).1.nodes.lookup n = some obj.properties
    rw [f.1]
    exact lookup_setNodeProps st.nodes n obj.properties hn
  · intro en hen hn2
    rw [hsave] at hen
    have hen1 : en ∈ (IndexBatch.submit ops
        (((st.set_properties n obj.properties).index_remove obj.cls.name
          n).entries obj.cls.name)).1 := by
      rw [← hentries]
      exact hen
    rcases submit_provenance ops _ en hen1 with hmem | ⟨op, hop, hentry⟩
    · rw [index_remove_entries_self, List.mem_filter] at hmem
      exact absurd hn2 (by simpa [bne_iff_ne] using hmem.2)
    · have hkv : op.keyval ∈ obj.properties :=
        (index_ops_keyval_sublist obj.cls n obj.properties ops hops).subset
          (List.mem_map_of_mem _ hop)
      have heq : (en.1, en.2.1) = op.keyval := by
        rw [← hentry]
        rfl
      rw [heq]
      exact hkv
  · rw [hsave]
    show (NeoNode.update_index obj.cls obj.properties n
        ((st.set_properties n obj.properties).index_remove obj.cls.name
          n)).2 = none ∨ _ = some PyErr.notUnique
    rw [herr]
    cases hc : (IndexBatch.submit ops
        (((st.set_properties n obj.properties).index_remove obj.cls.name
          n).entries obj.cls.name)).2.contains 200 <;> simp
  · intro hnone k v q hkv hq hix
    rw [hsave] at hnone
    have hnone1 : (NeoNode.update_index obj.cls obj.properties n
        ((st.set_properties n obj.properties).index_remove obj.cls.name
          n)).2 = none := hnone
    rw [herr] at hnone1
    have hc : (IndexBatch.submit ops
        (((st.set_properties n obj.properties).index_remove obj.cls.name
          n).entries obj.cls.name)).2.contains 200 = false := by
      cases hc : (IndexBatch.submit ops
          (((st.set_properties n obj.properties).index_remove obj.cls.name
            n).entries obj.cls.name)).2.contains 200
      · rfl
      · rw [hc] at hnone1
        simp at hnone1
    have h200 : 200 ∉ (IndexBatch.submit ops
        (((st.set_properties n obj.properties).index_remove obj.cls.name
          n).entries obj.cls.name)).2 := by
      intro hmem
      have := List.elem_iff.mpr hmem
      rw [show (IndexBatch.submit ops
          (((st.set_properties n obj.properties).index_remove obj.cls.name
            n).entries obj.cls.name)).2.contains 200 =
          (IndexBatch.submit ops
          (((st.set_properties n obj.properties).index_remove obj.cls.name
            n).entries obj.cls.name)).2.elem 200 from rfl] at hc
      rw [this] at hc
      cases hc
    rw [hsave]
    show (k, v, n) ∈ (NeoNode.update_index obj.cls obj.properties n
        ((st.set_properties n obj.properties).index_remove obj.cls.name
          n)).1.entries obj.cls.name
    rw [hentries]
    cases hu : q.unique_index
    · have hi : q.index = true := by
        simpa [Property.is_indexed, hu] using hix
      exact submit_add_insert ops _ k v n
        (index_ops_mem_add obj.cls n obj.properties ops hops k v q hkv hq hu hi)
    · exact submit_success_insert ops _ k v n
        (index_ops_mem_addIfNone obj.cls n obj.properties ops hops k v q hkv
          hq hu) h200

/-- **C4 witness.** Re-saving the persisted Jim: the object keeps identity
1, the store node carries exactly Jim's properties, the unique `name`
re-insert succeeds (no error), and the refreshed index holds his current
value. -/
theorem C4_persisted_save_no_rollback_witness :
    (demoJimP.save demoStore).2.1 = demoJimP ∧
    ((demoJimP.save demoStore).1.nodes).lookup 1 = some demoJimP.properties ∧
    ((demoJimP.save demoStore).2.2 = none ∨
      (demoJimP.save demoStore).2.2 = some PyErr.notUnique) := by
  have hd : ∀ kv ∈ demoJimP.properties,
      ∃ q, demoJimP.cls.attrs.lookup kv.1 = some (Attr.prop q) := by
    intro kv hkv
    have hlist : demoJimP.properties = [("name", Value.str "jim")] := rfl
    rw [hlist] at hkv
    simp only [List.mem_singleton] at hkv
    subst hkv
    exact ⟨demoUnique, rfl⟩
  have h := C4_persisted_save_no_rollback demoJimP 1 demoStore rfl hd rfl
  exact ⟨h.1, h.2.1, h.2.2.2.1⟩

/-- The recursion of `_validate_args` succeeds and assigns exactly the
supplied pairs when every key is a declared `Property` whose value
validates. -/
theorem validate_args_ok (cls : NodeClass) :
    ∀ (kwargs : List (String × Value)),
      (∀ kv ∈ kwargs, ∃ p, cls.attrs.lookup kv.1 = some (Attr.prop p) ∧
        p.validate kv.2 = .ok true) →
      NeoNode.validate_args cls kwargs = .ok kwargs := by
  intro kwargs
  induction kwargs with
  | nil =>
      intro _
      rfl
  | cons kv rest ih =>
      intro h
      obtain ⟨k, v⟩ := kv
      obtain ⟨p, hp, hv⟩ := h (k, v) (List.mem_cons_self _ _)
      have hrest := ih (fun kv hkv => h kv (List.mem_cons_of_mem _ hkv))
      simp [NeoNode.validate_args, hp, hv, hrest, bind_ok_eq]

/-- The recursion of `_validate_args` raises `NoSuchProperty` at the first
undeclared key when every declared key validates and some key is
undeclared. -/
theorem validate_args_noSuch (cls : NodeClass) :
    ∀ (kwargs : List (String × Value)),
      (∀ kv ∈ kwargs, (∃ p, cls.attrs.lookup kv.1 = some (Attr.prop p) ∧
        p.validate kv.2 = .ok true) ∨ cls.attrs.lookup kv.1 = none) →
      (∃ kv ∈ kwargs, cls.attrs.lookup kv.1 = none) →
      ∃ k, cls.attrs.lookup k = none ∧
        NeoNode.validate_args cls kwargs = .error (.noSuchProperty k) := by
  intro kwargs
  induction kwargs with
  | nil =>
      intro _ hmiss
      simp at hmiss
  | cons kv rest ih =>
      intro h hmiss
      obtain ⟨k, v⟩ := kv
      rcases h (k, v) (List.mem_cons_self _ _) with ⟨p, hp, hv⟩ | hnone
      · have hmiss' : ∃ kv ∈ rest, cls.attrs.lookup kv.1 = none := by
          obtain ⟨kv0, hkv0, h0⟩ := hmiss
          rcases List.mem_cons.mp hkv0 with rfl | hkv0'
          · rw [hp] at h0
            cases h0
          · exact ⟨kv0, hkv0', h0⟩
        obtain ⟨k0, h0, herr⟩ :=
          ih (fun kv hkv => h kv (List.mem_cons_of_mem _ hkv)) hmiss'
        exact ⟨k0, h0, by
          simp [NeoNode.validate_args, hp, hv, herr, bind_ok_eq, bind_error_eq]⟩
      · exact ⟨k, hnone, by simp [NeoNode.validate_args, hnone]⟩

/-- **C5.** Constructing a mapped node with a key not declared on its
class fails with `NoSuchProperty` (for some undeclared key among the
supplied ones, the other keys being well-formed), and constructing with
only declared keys whose values pass their descriptors' validation
succeeds, with the resulting object transient and its `properties`
reflecting exactly the supplied pairs (none of which is
underscore-prefixed). -/
theorem C5_construction_validation :
    (∀ (cls : NodeClass) (kwargs : List (String × Value)),
      (∀ kv ∈ kwargs, (∃ p, cls.attrs.lookup kv.1 = some (Attr.prop p) ∧
        p.validate kv.2 = .ok true) ∨ cls.attrs.lookup kv.1 = none) →
      (∃ kv ∈ kwargs, cls.attrs.lookup kv.1 = none) →
      ∃ k, cls.attrs.lookup k = none ∧
        NeoNode.init cls kwargs = .error (.noSuchProperty k)) ∧
    (∀ (cls : NodeClass) (kwargs : List (String × Value)),
      (∀ kv ∈ kwargs, ∃ p, cls.attrs.lookup kv.1 = some (Attr.prop p) ∧
        p.validate kv.2 = .ok true) →
      (∀ kv ∈ kwargs, startsWithUnderscore kv.1 = false) →
      ∃ obj, NeoNode.init cls kwargs = .ok obj ∧
        obj.properties = kwargs ∧ obj.node? = none ∧ obj.cls = cls) := by
  constructor
  · intro cls kwargs hval hmiss
    obtain ⟨k, hk, herr⟩ := validate_args_noSuch cls kwargs hval hmiss
    exact ⟨k, hk, by simp [NeoNode.init, herr, bind_error_eq]⟩
  · intro cls kwargs hval hkeys
    refine ⟨{ cls := cls, node? := none, dict := kwargs }, ?_, ?_, rfl, rfl⟩
    · simp [NeoNode.init, validate_args_ok cls kwargs hval, bind_ok_eq]
    · show kwargs.filter (fun p => !startsWithUnderscore p.1) = kwargs
      rw [List.filter_eq_self]
      intro kv hkv
      simp [hkeys kv hkv]

/-- **C5 witness.** Supplying the undeclared `age` fails with
`NoSuchProperty`; supplying only the declared valid `name` succeeds and
`properties` holds exactly it. -/
theorem C5_construction_validation_witness :
    (∃ k, demoPerson.attrs.lookup k = none ∧
      NeoNode.init demoPerson [("name", .str "jim"), ("age", .int 7)] =
        .error (.noSuchProperty k)) ∧
    (∃ obj, NeoNode.init demoPerson [("name", .str "jim")] = .ok obj ∧
      obj.properties = [("name", .str "jim")] ∧ obj.node? = none ∧
      obj.cls = demoPerson) := by
  constructor
  · refine C5_construction_validation.1 demoPerson _ ?_ ?_
    · intro kv hkv
      have : kv = ("name", Value.str "jim") ∨ kv = ("age", Value.int 7) := by
        simpa using hkv
      rcases this with rfl | rfl
      · exact Or.inl ⟨demoUnique, rfl, rfl⟩
      · exact Or.inr rfl
    · exact ⟨("age", Value.int 7), by simp, rfl⟩
  · refine C5_construction_validation.2 demoPerson _ ?_ ?_
    · intro kv hkv
      have : kv = ("name", Value.str "jim") := by simpa using hkv
      rw [this]
      exact ⟨demoUnique, rfl, rfl⟩
    · intro kv hkv
      have : kv = ("name", Value.str "jim") := by simpa using hkv
      rw [this]
      rfl

/-- **C6.** `delete()` on a transient node fails with the spec's
`NodeNotPersisted` leaving everything untouched; on a persisted node it
removes every incident relationship and the node itself from the store
(and nothing else), clears the remote identity and returns `True`; a
second `delete()` on the same object fails with `NodeNotPersisted`
again. -/
theorem C6_delete_lifecycle (obj : NeoNode) (st : Store) :
    (obj.node? = none → obj.delete st = (st, obj, .error .nodeNotPersisted)) ∧
    (∀ n, obj.node? = some n →
      (obj.delete st).2.2 = .ok true ∧
      (obj.delete st).2.1.node? = none ∧
      (∀ p ∈ (obj.delete st).1.nodes, p.1 ≠ n) ∧
      (∀ e ∈ (obj.delete st).1.edges, e.1 ≠ n ∧ e.2.2 ≠ n) ∧
      (∀ p ∈ st.nodes, p.1 ≠ n → p ∈ (obj.delete st).1.nodes) ∧
      (∀ e ∈ st.edges, e.1 ≠ n → e.2.2 ≠ n → e ∈ (obj.delete st).1.edges) ∧
      ((obj.delete st).2.1.delete (obj.delete st).1).2.2 =
        .error .nodeNotPersisted) := by
  constructor
  · intro h
    simp [NeoNode.delete, h]
  · intro n h
    have hd : obj.delete st =
        (st.delete_node n, { obj with node? := none }, .ok true) := by
      simp [NeoNode.delete, h]
    rw [hd]
    refine ⟨rfl, rfl, ?_, ?_, ?_, ?_, rfl⟩
    all_goals
      simp only [Store.delete_node, List.mem_filter, Bool.and_eq_true,
        bne_iff_ne]
    · exact fun p hp => hp.2
    · exact fun e he => he.2
    · exact fun p hp hne => ⟨hp, hne⟩
    · exact fun e he h1 h2 => ⟨he, h1, h2⟩

/-- **C6 witness.** Deleting the transient Jim fails; deleting the
persisted Jim (node 1) returns `True` and clears the identity. -/
theorem C6_delete_lifecycle_witness :
    demoJim.delete demoEmpty = (demoEmpty, demoJim, .error .nodeNotPersisted) ∧
    (demoJimP.delete demoStore).2.2 = .ok true ∧
    (demoJimP.delete demoStore).2.1.node? = none ∧
    ((demoJimP.delete demoStore).2.1.delete (demoJimP.delete demoStore).1).2.2 =
      .error .nodeNotPersisted :=
  ⟨(C6_delete_lifecycle demoJim demoEmpty).1 rfl,
   ((C6_delete_lifecycle demoJimP demoStore).2 1 rfl).1,
   ((C6_delete_lifecycle demoJimP demoStore).2 1 rfl).2.1,
   ((C6_delete_lifecycle demoJimP demoStore).2 1 rfl).2.2.2.2.2.2⟩

/-- **C7.** `relate(obj)` fails with the spec's `TypeMismatch` when
`obj`'s class is not the definition's target class; otherwise it fails
with `NodeNotPersisted` when `obj` is transient; otherwise it creates the
edge through the store's get-or-create primitive (adding at most that one
edge) and caches `obj` under its remote identity. -/
theorem C7_relate_checks_and_effects (m : RelationshipManager)
    (obj : NeoNode) (st : Store) :
    (obj.cls ≠ m.node_class →
      m.relate obj st = (st, m, some (.typeMismatch m.node_class.name))) ∧
    (obj.cls = m.node_class → obj.node? = none →
      m.relate obj st = (st, m, some .nodeNotPersisted)) ∧
    (∀ t o, obj.cls = m.node_class → obj.node? = some t →
      m.origin.node? = some o →
      (m.relate obj st).2.2 = none ∧
      (o, m.relation_type, t) ∈ (m.relate obj st).1.edges ∧
      (m.relate obj st).2.1.related.lookup t = some obj ∧
      (∀ ed ∈ (m.relate obj st).1.edges,
        ed = (o, m.relation_type, t) ∨ ed ∈ st.edges)) := by
  refine ⟨?_, ?_, ?_⟩
  · intro h
    simp [RelationshipManager.relate, h]
  · intro hcls h
    simp [RelationshipManager.relate, hcls, h]
  · intro t o hcls ht ho
    have hr : m.relate obj st =
        (st.get_or_create_rel o m.relation_type t,
         { m with related := cacheInsert m.related t obj }, none) := by
      simp [RelationshipManager.relate, hcls, ht, ho]
    rw [hr]
    refine ⟨rfl, ?_, lookup_cacheInsert_self _ _ _, ?_⟩
    · by_cases hmem : (o, m.relation_type, t) ∈ st.edges
      · simp [Store.get_or_create_rel, List.contains, List.elem_iff, hmem]
      · simp [Store.get_or_create_rel, List.contains, List.elem_iff, hmem]
    · intro ed hed
      by_cases hmem : (o, m.relation_type, t) ∈ st.edges
      · simp [Store.get_or_create_rel, List.contains, List.elem_iff,
          hmem] at hed
        exact Or.inr hed
      · simp [Store.get_or_create_rel, List.contains, List.elem_iff,
          hmem] at hed
        exact hed

/-- **C7 witness.** A wrong-class target, a transient target, and a
successful relate of the persisted Bob from Ann. -/
theorem C7_relate_checks_and_effects_witness :
    demoManager.relate demoRex demoEmpty =
      (demoEmpty, demoManager, some (.typeMismatch demoManager.node_class.name)) ∧
    demoManager.relate demoJim demoEmpty =
      (demoEmpty, demoManager, some .nodeNotPersisted) ∧
    (demoManager.relate demoTarget demoEmpty).2.2 = none ∧
    (0, demoManager.relation_type, 1) ∈
      (demoManager.relate demoTarget demoEmpty).1.edges ∧
    (demoManager.relate demoTarget demoEmpty).2.1.related.lookup 1 =
      some demoTarget :=
  ⟨(C7_relate_checks_and_effects demoManager demoRex demoEmpty).1 (by decide),
   (C7_relate_checks_and_effects demoManager demoJim demoEmpty).2.1 rfl rfl,
   ((C7_relate_checks_and_effects demoManager demoTarget demoEmpty).2.2
      1 0 rfl rfl rfl).1,
   ((C7_relate_checks_and_effects demoManager demoTarget demoEmpty).2.2
      1 0 rfl rfl rfl).2.1,
   ((C7_relate_checks_and_effects demoManager demoTarget demoEmpty).2.2
      1 0 rfl rfl rfl).2.2.1⟩

/-- **C8.** `unrelate(obj)` drops `obj` from the cache when its id is a
key (touching no other entry); then, looking at the edges between origin
and `obj` of the declared type/direction: none is a no-op, exactly one is
deleted, and more than one raises the spec's `MultipleRelationships`. -/
theorem C8_unrelate_cases (m : RelationshipManager) (obj : NeoNode)
    (st : Store) (t o : Nat) (ht : obj.node? = some t)
    (ho : m.origin.node? = some o) :
    (m.unrelate obj st).2.1.related.lookup t = none ∧
    (∀ p ∈ m.related, p.1 ≠ t → p ∈ (m.unrelate obj st).2.1.related) ∧
    (st.get_relationships_with o t m.direction m.relation_type = [] →
      (m.unrelate obj st).1 = st ∧ (m.unrelate obj st).2.2 = none) ∧
    (∀ ed, st.get_relationships_with o t m.direction m.relation_type = [ed] →
      (m.unrelate obj st).1 = st.delete_rel ed ∧
      (m.unrelate obj st).2.2 = none) ∧
    (1 < (st.get_relationships_with o t m.direction m.relation_type).length →
      (m.unrelate obj st).1 = st ∧
      (m.unrelate obj st).2.2 = some (.multipleRelationships
        (st.get_relationships_with o t m.direction m.relation_type).length)) := by
  by_cases hc : m.related.any (fun p => p.1 == t) = true <;>
    rcases hrels : st.get_relationships_with o t m.direction m.relation_type
      with _ | ⟨a, _ | ⟨b, l⟩⟩
  · have hu : m.unrelate obj st =
        (st, { m with related := m.related.filter (fun p => p.1 != t) },
          none) := by
      simp [RelationshipManager.unrelate, ht, ho, hc, hrels]
    rw [hu]
    refine ⟨lookup_filter_key_ne _ _, ?_, fun _ => ⟨rfl, rfl⟩, ?_, ?_⟩
    · intro p hp hne
      simp only [List.mem_filter, bne_iff_ne]
      exact ⟨hp, hne⟩
    · intro ed hed
      simp at hed
    · intro hlen
      simp at hlen
  · have hu : m.unrelate obj st =
        (st.delete_rel a,
          { m with related := m.related.filter (fun p => p.1 != t) },
          none) := by
      simp [RelationshipManager.unrelate, ht, ho, hc, hrels]
    rw [hu]
    refine ⟨lookup_filter_key_ne _ _, ?_, ?_, ?_, ?_⟩
    · intro p hp hne
      simp only [List.mem_filter, bne_iff_ne]
      exact ⟨hp, hne⟩
    · intro h
      simp at h
    · intro ed hed
      simp only [List.cons.injEq, and_true] at hed
      rw [← hed]
      exact ⟨rfl, rfl⟩
    · intro hlen
      simp at hlen
  · have hu : m.unrelate obj st =
        (st, { m with related := m.related.filter (fun p => p.1 != t) },
          some (.multipleRelationships (a :: b :: l).length)) := by
      simp [RelationshipManager.unrelate, ht, ho, hc, hrels]
    rw [hu]
    refine ⟨lookup_filter_key_ne _ _, ?_, ?_, ?_, fun _ => ⟨rfl, rfl⟩⟩
    · intro p hp hne
      simp only [List.mem_filter, bne_iff_ne]
      exact ⟨hp, hne⟩
    · intro h
      simp at h
    · intro ed hed
      simp at hed
  · have hu : m.unrelate obj st = (st, m, none) := by
      simp [RelationshipManager.unrelate, ht, ho, hc, hrels]
    rw [hu]
    refine ⟨lookup_eq_none_of_any_false _ _ (Bool.eq_false_iff.mpr hc),
      fun p hp _ => hp, fun _ => ⟨rfl, rfl⟩, ?_, ?_⟩
    · intro ed hed
      simp at hed
    · intro hlen
      simp at hlen
  · have hu : m.unrelate obj st = (st.delete_rel a, m, none) := by
      simp [RelationshipManager.unrelate, ht, ho, hc, hrels]
    rw [hu]
    refine ⟨lookup_eq_none_of_any_false _ _ (Bool.eq_false_iff.mpr hc),
      fun p hp _ => hp, ?_, ?_, ?_⟩
    · intro h
      simp at h
    · intro ed hed
      simp only [List.cons.injEq, and_true] at hed
      rw [← hed]
      exact ⟨rfl, rfl⟩
    · intro hlen
      simp at hlen
  · have hu : m.unrelate obj st =
        (st, m, some (.multipleRelationships (a :: b :: l).length)) := by
      simp [RelationshipManager.unrelate, ht, ho, hc, hrels]
    rw [hu]
    refine ⟨lookup_eq_none_of_any_false _ _ (Bool.eq_false_iff.mpr hc),
      fun p hp _ => hp, ?_, ?_, fun _ => ⟨rfl, rfl⟩⟩
    · intro h
      simp at h
    · intro ed hed
      simp at hed

/-- **C8 witness.** With Bob cached: a store with no `FRIEND` edge is a
no-op, a store with exactly one deletes it, and a store with two parallel
edges raises `MultipleRelationships` — in each case Bob leaves the
cache. -/
theorem C8_unrelate_cases_witness :
    (demoManagerCached.unrelate demoTarget demoEmpty).2.1.related.lookup 1 =
      none ∧
    ((demoManagerCached.unrelate demoTarget demoEmpty).1 = demoEmpty ∧
      (demoManagerCached.unrelate demoTarget demoEmpty).2.2 = none) ∧
    ((demoManagerCached.unrelate demoTarget demoRelStoreOne).1 =
        demoRelStoreOne.delete_rel (0, "FRIEND", 1) ∧
      (demoManagerCached.unrelate demoTarget demoRelStoreOne).2.2 = none) ∧
    ((demoManagerCached.unrelate demoTarget demoRelStore).1 = demoRelStore ∧
      (demoManagerCached.unrelate demoTarget demoRelStore).2.2 =
        some (.multipleRelationships 2)) :=
  ⟨(C8_unrelate_cases demoManagerCached demoTarget demoEmpty 1 0 rfl rfl).1,
   (C8_unrelate_cases demoManagerCached demoTarget demoEmpty 1 0 rfl
      rfl).2.2.1 rfl,
   (C8_unrelate_cases demoManagerCached demoTarget demoRelStoreOne 1 0 rfl
      rfl).2.2.2.1 (0, "FRIEND", 1) rfl,
   (C8_unrelate_cases demoManagerCached demoTarget demoRelStore 1 0 rfl
      rfl).2.2.2.2 (by decide)⟩

/-- **C10.** When `obj` is cached and more than one matching edge exists,
`unrelate` removes the cache entry *before* raising
`MultipleRelationships`: the error comes with an already-mutated cache
(and an untouched store), so the failing branch is not atomic with
respect to the cache. -/
theorem C10_unrelate_cache_mutation_on_error (m : RelationshipManager)
    (obj : NeoNode) (st : Store) (t o : Nat) (ht : obj.node? = some t)
    (ho : m.origin.node? = some o)
    (hcache : m.related.any (fun p => p.1 == t) = true)
    (hmulti : 1 <
      (st.get_relationships_with o t m.direction m.relation_type).length) :
    (m.unrelate obj st).2.2 = some (.multipleRelationships
      (st.get_relationships_with o t m.direction m.relation_type).length) ∧
    (m.unrelate obj st).2.1.related = m.related.filter (fun p => p.1 != t) ∧
    (m.unrelate obj st).2.1.related ≠ m.related ∧
    (m.unrelate obj st).1 = st := by
  obtain ⟨v, hv⟩ := lookup_isSome_of_any m.related t hcache
  have hne : (m.related.filter (fun p => p.1 != t)) ≠ m.related := by
    intro heq
    have h1 := lookup_filter_key_ne m.related t
    rw [heq, hv] at h1
    cases h1
  rcases hrels : st.get_relationships_with o t m.direction m.relation_type
    with _ | ⟨a, _ | ⟨b, l⟩⟩
  · rw [hrels] at hmulti
    simp at hmulti
  · rw [hrels] at hmulti
    simp at hmulti
  · have hu : m.unrelate obj st =
        (st, { m with related := m.related.filter (fun p => p.1 != t) },
          some (.multipleRelationships (a :: b :: l).length)) := by
      simp [RelationshipManager.unrelate, ht, ho, hcache, hrels]
    rw [hu]
    exact ⟨rfl, rfl, hne, rfl⟩

/-- **C10 witness.** Bob cached and two parallel `FRIEND` edges in the
store: `MultipleRelationships` is raised with Bob already evicted from the
cache. -/
theorem C10_unrelate_cache_mutation_on_error_witness :
    (demoManagerCached.unrelate demoTarget demoRelStore).2.2 =
      some (.multipleRelationships
        (demoRelStore.get_relationships_with 0 1 demoManagerCached.direction
          demoManagerCached.relation_type).length) ∧
    (demoManagerCached.unrelate demoTarget demoRelStore).2.1.related =
      demoManagerCached.related.filter (fun p => p.1 != 1) ∧
    (demoManagerCached.unrelate demoTarget demoRelStore).2.1.related ≠
      demoManagerCached.related ∧
    (demoManagerCached.unrelate demoTarget demoRelStore).1 = demoRelStore :=
  C10_unrelate_cache_mutation_on_error demoManagerCached demoTarget
    demoRelStore 1 0 rfl rfl (by decide) (by decide)

end Neomodel
